import Mathlib

/-!
Shallow embedding of the per-vBucket storage / durability core of the
kv_engine repository (engines/ep/src/vbucket.cc and
engines/ep/src/collections/manifest.cc), together with theorems settling
the specification claims about it.

Machine integers of the source are modelled as `Nat`; the floating-point
memory thresholds are modelled as rationals (`ℚ`); C++ `boost::optional`
becomes `Option`; fallible paths return explicit status codes exactly as
the source does.  Components of the repository whose implementation files
are not available (the `ActiveDurabilityMonitor` internals, the
`EPVBucket` hash-table update helpers, the hex-uid utilities) are
modelled from the specification; each such definition carries a doc
comment starting with `Modelled from the spec:`.
-/

namespace KVEngine

/-- The vbucket_state_t enum (vbucket.cc `toString`): Active, Replica,
Pending, Dead. -/
inductive VBState
  | active
  | replica
  | pending
  | dead
deriving DecidableEq, Repr

/-- Eviction policy parameter of the hash table: Value or Full. -/
inductive EvictionPolicy
  | value
  | full
deriving DecidableEq, Repr

/-- Temp-marker kind of a StoredValue (`None | Init | NonExistent |
Deleted` in the data model). -/
inductive TempKind
  | notTemp
  | tempInitial
  | tempNonExistent
  | tempDeleted
deriving DecidableEq, Repr

/-- Committed-state marker of a StoredValue. -/
inductive CommittedState
  | pend
  | committedViaMutation
  | committedViaPrepare
deriving DecidableEq, Repr

/-- The ENGINE_ERROR_CODE values surfaced by the vbucket operations in
vbucket.cc. -/
inductive Engine
  | success
  | keyEnoent
  | keyEexists
  | notStored
  | ewouldblock
  | enomem
  | locked
  | lockedTmpfail
  | einval
  | predicateFailed
  | syncWriteInProgress
  | syncWriteAmbiguous
  | durabilityImpossible
deriving DecidableEq, Repr

/-- MutationStatus as produced by VBucket::processSet /
processSoftDelete / processExpiredItem. -/
inductive MutationStatus
  | noMem
  | invalidCas
  | isLocked
  | notFound
  | wasDirty
  | wasClean
  | needBgFetch
  | isPendingSyncWrite
deriving DecidableEq, Repr

/-- AddStatus as produced by VBucket::processAdd. -/
inductive AddStatus
  | success
  | noMem
  | exists_
  | addTmpAndBgFetch
  | bgFetch
  | unDel
deriving DecidableEq, Repr

/-- StoreIfStatus of the optional store predicate passed to set /
replace. -/
inductive StoreIfStatus
  | continue_
  | fail
  | getItemInfo
deriving DecidableEq, Repr

/-- The in-memory record for a key, keeping the attributes that the
vbucket.cc write paths interrogate.  The time-dependent predicates
`isExpired(ep_real_time())` and `isLocked(ep_current_time())` of the
(unavailable) StoredValue implementation are modelled as the boolean
fields `expired` and `locked`, fixed for the duration of one
operation. -/
structure StoredValue where
  cas : Nat
  deleted : Bool
  temp : TempKind
  expired : Bool
  locked : Bool
  dirty : Bool
  resident : Bool
  committed : CommittedState
deriving DecidableEq, Repr

/-- StoredValue::isTempItem. -/
def StoredValue.isTempItem (v : StoredValue) : Bool :=
  v.temp != TempKind.notTemp

/-- StoredValue::isTempInitialItem. -/
def StoredValue.isTempInitialItem (v : StoredValue) : Bool :=
  v.temp == TempKind.tempInitial

/-- StoredValue::isTempNonExistentItem. -/
def StoredValue.isTempNonExistentItem (v : StoredValue) : Bool :=
  v.temp == TempKind.tempNonExistent

/-- StoredValue::isTempDeletedItem. -/
def StoredValue.isTempDeletedItem (v : StoredValue) : Bool :=
  v.temp == TempKind.tempDeleted

/-- StoredValue::unlock. -/
def StoredValue.unlock (v : StoredValue) : StoredValue :=
  { v with locked := false }

/-- Durability requirements attached to a durable write
(cb::durability::Requirements).  `deadline = none` models
`Timeout::Infinity`; `valid` models `Requirements::isValid()` whose
implementation is outside the available sources. -/
structure DurReq where
  valid : Bool
  deadline : Option Nat
deriving DecidableEq, Repr

/-- An incoming Item on a write path, with the attributes processSet /
processAdd interrogate.  `pending` is `Item::isPending()` (a durable
prepare); `seqno` is the prepare seqno used when the item is registered
with the durability monitor. -/
structure Item where
  cas : Nat
  deleted : Bool
  pending : Bool
  tempInitItem : Bool
  seqno : Nat
  reqs : DurReq
deriving DecidableEq, Repr

/-- Kind of an item placed on the checkpoint queue. -/
inductive QItemKind
  | mutationItem
  | prepareItem
  | commitItem
  | abortItem
deriving DecidableEq, Repr

/-- An item enqueued for persistence/replication (the checkpoint queue
view the claims need: its kind, and for aborts/commits the prepare seqno
it carries). -/
structure QItem where
  kind : QItemKind
  prepareSeqno : Nat
deriving DecidableEq, Repr

/-- An in-flight prepare tracked by the durability monitor: its seqno,
its timeout deadline (`none` = Timeout::Infinity) and the client cookie
to notify on completion. -/
structure Prepare where
  seqno : Nat
  deadline : Option Nat
  cookie : Option Nat
deriving DecidableEq, Repr

/-- Memory-accounting inputs of VBucket::hasMemoryForStoredValue.  The
projected usage `estimateNewMemoryUsage(st, item)` and the configured
sizes/ratios are taken as rational numbers (the source uses `double`;
the claims are about which threshold is compared, not about rounding). -/
structure MemCfg where
  newSize : ℚ
  maxSize : ℚ
  mutationMemThreshold : ℚ
  replicationThrottleThreshold : ℚ
deriving DecidableEq, Repr

/-- VBucket::hasMemoryForStoredValue (vbucket.cc): admit when the
projected usage is within `mutationMemThreshold * maxDataSize` if the
vBucket is Active (or the active threshold is explicitly requested),
within `replicationThrottleThreshold * maxDataSize` otherwise. -/
def hasMemoryForStoredValue (state : VBState) (useActiveVBMemThreshold : Bool)
    (m : MemCfg) : Bool :=
  if useActiveVBMemThreshold || state == VBState.active then
    m.newSize ≤ m.maxSize * m.mutationMemThreshold
  else
    m.newSize ≤ m.maxSize * m.replicationThrottleThreshold

/-- A replication chain: an ordered list of node slots, `none` being an
undefined (null) replica slot. -/
def Chain := List (Option String)

/-- Number of defined (non-null) nodes of a chain. -/
def definedNodes (c : Chain) : Nat :=
  (c.filter Option.isSome).length

/-- Majority of a chain: floor(chainSize / 2) + 1, over all slots
(defined or not). -/
def chainMajority (c : Chain) : Nat :=
  c.length / 2 + 1

/-- Modelled from the spec: ActiveDurabilityMonitor::isDurabilityPossible
(durability/active_durability_monitor.cc is not among the available
sources).  "For each chain, the number of defined nodes must be >=
majority = floor(chainSize/2)+1."  An ActiveDM with no replication
topology configured tracks nothing, so an empty topology is not
durability-possible. -/
def durabilityPossible (topology : List Chain) : Bool :=
  !topology.isEmpty &&
    topology.all (fun c => chainMajority c ≤ definedNodes c)

/-- Modelled from the spec: the timeout deadline of a tracked prepare has
passed at wall time `asOf`.  A prepare with `Timeout::Infinity`
(`deadline = none`) never expires. -/
def Prepare.expiredBy (p : Prepare) (asOf : Nat) : Bool :=
  match p.deadline with
  | none => false
  | some d => d ≤ asOf

/-- Result of ActiveDurabilityMonitor::processTimeout: the remaining
tracked prepares, the abort items queued (one per expired prepare,
carrying its prepareSeqno, as VBucket::queueAbort does), and the client
notifications issued (SyncWriteAmbiguous, as VBucket::abort does). -/
structure TimeoutResult where
  tracked : List Prepare
  aborted : List QItem
  notified : List (Nat × Engine)
deriving DecidableEq, Repr

/-- Modelled from the spec: ActiveDurabilityMonitor::processTimeout(asOf)
walks the tracked prepares and aborts exactly those whose deadline has
passed at `asOf`; each aborted prepare is removed from the tracked set,
an abort item carrying its prepareSeqno is queued (VBucket::queueAbort,
vbucket.cc) and the client cookie is notified SyncWriteAmbiguous
(VBucket::abort, vbucket.cc). -/
def processTimeout (tracked : List Prepare) (asOf : Nat) : TimeoutResult :=
  let expired := tracked.filter (fun p => p.expiredBy asOf)
  { tracked := tracked.filter (fun p => !p.expiredBy asOf)
    aborted := expired.map (fun p => ⟨QItemKind.abortItem, p.seqno⟩)
    notified := (expired.filterMap Prepare.cookie).map
      (fun c => (c, Engine.syncWriteAmbiguous)) }

/-- Per-operation configuration of a VBucket, fixing the quantities the
vbucket.cc write paths consult: the vBucket state, the eviction policy,
the memory-accounting inputs, the Bloom-filter answer
(`maybeKeyExistsInFilter`), `areDeletedItemsAlwaysResident()`, the
collection handle's `isLogicallyDeleted` answer for the key, and the
replication topology backing the Active Durability Monitor.  `tempMemOk`
is the memory-admission answer for the temp-initial item built by
addTempStoredValue. -/
structure VBCfg where
  state : VBState
  eviction : EvictionPolicy
  mem : MemCfg
  tempMemOk : Bool
  bloomMaybe : Bool
  deletedAlwaysResident : Bool
  keyLogicallyDeleted : Bool
  topology : List Chain

/-- The per-key slice of VBucket state the claims are about: the stored
value at the key, the items queued to the checkpoint manager, and the
prepares tracked by the durability monitor. -/
structure KState where
  sv : Option StoredValue
  queued : List QItem
  tracked : List Prepare
deriving DecidableEq, Repr

/-- The StoredValue built from an incoming item on a successful update or
insert; a durable item becomes a Pending value. -/
def svFromItem (itm : Item) : StoredValue :=
  { cas := itm.cas, deleted := itm.deleted, temp := TempKind.notTemp,
    expired := false, locked := false, dirty := true, resident := true,
    committed := if itm.pending then CommittedState.pend
                 else CommittedState.committedViaMutation }

/-- The checkpoint item queued for an incoming item (a prepare when the
item is a durable write, as VBucket::queueItem distinguishes). -/
def mkQItem (itm : Item) : QItem :=
  ⟨if itm.pending then QItemKind.prepareItem else QItemKind.mutationItem, 0⟩

/-- The prepare registered with the durability monitor for a durable
item (VBucket::queueItem calls DurabilityMonitor::addSyncWrite). -/
def mkPrepare (itm : Item) (cookie : Option Nat) : Prepare :=
  ⟨itm.seqno, itm.reqs.deadline, cookie⟩

/-- Modelled from the spec: EPVBucket::updateStoredValue (the EPVBucket
implementation file is not among the sources).  It replaces the stored
value with the incoming item, queues it via VBucket::queueDirty
(vbucket.cc: the item is enqueued and, when durable, registered with the
durability monitor under the single dmQueueMutex), and reports WasDirty
or WasClean from the old value's dirty flag; per the spec a mutation at
a key holding a pending prepare fails SyncWriteInProgress. -/
def updateStoredValue (v : StoredValue) (itm : Item) (cookie : Option Nat)
    (st : KState) : MutationStatus × KState :=
  if v.committed == CommittedState.pend then
    (.isPendingSyncWrite, { st with sv := some v })
  else
    ((if v.dirty then MutationStatus.wasDirty else MutationStatus.wasClean),
     { sv := some (svFromItem itm)
       queued := st.queued ++ [mkQItem itm]
       tracked := st.tracked ++ (if itm.pending then [mkPrepare itm cookie] else []) })

/-- Modelled from the spec: EPVBucket::addNewStoredValue: inserts a new
stored value for the item and queues it (registering the durable ones
with the durability monitor, as VBucket::queueItem does). -/
def addNewStoredValue (itm : Item) (cookie : Option Nat) (st : KState) : KState :=
  { sv := some (svFromItem itm)
    queued := st.queued ++ [mkQItem itm]
    tracked := st.tracked ++ (if itm.pending then [mkPrepare itm cookie] else []) }

/-- The temp-initial StoredValue added by VBucket::addTempStoredValue. -/
def tempInitialSV : StoredValue :=
  { cas := 0, deleted := false, temp := TempKind.tempInitial, expired := false,
    locked := false, dirty := false, resident := true,
    committed := CommittedState.committedViaMutation }

/-- VBucket::addTempStoredValue (vbucket.cc): NoMem (false) when the
temp-initial item fails memory admission, otherwise the temp item is
added to the hash table only (never queued) and a bgfetch is wanted. -/
def addTempStoredValue (cfg : VBCfg) (st : KState) : Bool × KState :=
  if !cfg.tempMemOk then (false, st)
  else (true, { st with sv := some tempInitialSV })

/-- Modelled from the spec: VBucket::addTempItemAndBGFetch (declared in
the unavailable vbucket.h): adds the temp item via addTempStoredValue
and schedules the background fetch, surfacing Ewouldblock; Enomem when
the temp item failed admission. -/
def addTempItemAndBGFetch (cfg : VBCfg) (st : KState) : Engine × KState :=
  match addTempStoredValue cfg st with
  | (false, st1) => (.enomem, st1)
  | (true, st1) => (.ewouldblock, st1)

/-- Tail of VBucket::processSet once past the expiry handling: the
`!hasMetaData` deleted-body CAS rule (MB-23530) and the final update. -/
def processSetFinal (v : StoredValue) (itm : Item) (cas : Nat)
    (hasMetaData : Bool) (cookie : Option Nat) (st : KState) :
    MutationStatus × KState :=
  if !hasMetaData && cas != 0 && (v.deleted || v.isTempDeletedItem)
      && !itm.deleted then
    (.notFound, st)
  else updateStoredValue v itm cookie st

/-- The existing-value branch of VBucket::processSet: allowExisting
check, lock check, CAS-mismatch special cases, then processSetFinal. -/
def processSetExisting (v : StoredValue) (itm : Item) (cas : Nat)
    (allowExisting hasMetaData : Bool) (cookie : Option Nat) (st : KState) :
    MutationStatus × KState :=
  if !allowExisting && !v.isTempItem && !v.deleted then (.invalidCas, st)
  else if v.locked then
    if cas != v.cas then (.isLocked, st)
    else
      let v1 := v.unlock
      processSetFinal v1 itm cas hasMetaData cookie { st with sv := some v1 }
  else if cas != 0 && cas != v.cas then
    if v.isTempNonExistentItem then (.notFound, st)
    else if (v.isTempDeletedItem || v.deleted) && !itm.deleted then
      (.notFound, st)
    else (.invalidCas, st)
  else processSetFinal v itm cas hasMetaData cookie st

/-- VBucket::processSet (vbucket.cc): memory admission, the two
NeedBgFetch gates, the expiry gate, then the existing/new value
branches.  The stored value, queued items and tracked prepares of the
returned state reflect exactly the mutations the source performs on
each path. -/
def processSet (cfg : VBCfg) (st : KState) (itm : Item) (cas : Nat)
    (allowExisting hasMetaData : Bool) (cookie : Option Nat)
    (storeIfStatus : StoreIfStatus) (maybeKeyExists : Bool) :
    MutationStatus × KState :=
  if !hasMemoryForStoredValue cfg.state false cfg.mem then (.noMem, st)
  else if st.sv.isNone && itm.deleted && cas != 0
      && !cfg.deletedAlwaysResident then
    (.needBgFetch, st)
  else if cfg.eviction == EvictionPolicy.full && maybeKeyExists
      && (cas != 0 || storeIfStatus == StoreIfStatus.getItemInfo)
      && st.sv.all StoredValue.isTempInitialItem then
    (.needBgFetch, st)
  else
    match st.sv with
    | some v0 =>
      if v0.expired && !hasMetaData && !itm.deleted then
        let v1 := if v0.locked then v0.unlock else v0
        if cas != 0 then (.notFound, { st with sv := some v1 })
        else
          processSetExisting v1 itm cas allowExisting hasMetaData cookie
            { st with sv := some v1 }
      else
        processSetExisting v0 itm cas allowExisting hasMetaData cookie st
    | none =>
      if cas != 0 then (.notFound, st)
      else (.wasClean, addNewStoredValue itm cookie st)

/-- The status-to-error-code mapping at the end of VBucket::set
(vbucket.cc): `casOp` is whether the incoming CAS was non-zero, `ret0`
the success code (Ewouldblock for a pending SyncWrite, Success
otherwise), `v` the stored value found before processSet ran. -/
def setMapStatus (cfg : VBCfg) (casOp : Bool) (ret0 : Engine)
    (v : Option StoredValue) (res : MutationStatus × KState) :
    Engine × KState :=
  match res.1 with
  | .noMem => (.enomem, res.2)
  | .invalidCas => (.keyEexists, res.2)
  | .isLocked => (.locked, res.2)
  | .notFound => if casOp then (.keyEnoent, res.2) else (ret0, res.2)
  | .wasDirty => (ret0, res.2)
  | .wasClean => (ret0, res.2)
  | .needBgFetch =>
    match v with
    | some _ => (.ewouldblock, res.2)
    | none => addTempItemAndBGFetch cfg res.2
  | .isPendingSyncWrite => (.syncWriteInProgress, res.2)

/-- VBucket::callPredicate (vbucket.cc): under value eviction a
GetItemInfo answer is downgraded to Continue. -/
def callPredicate (cfg : VBCfg) (s : StoreIfStatus) : StoreIfStatus :=
  if s == StoreIfStatus.getItemInfo && cfg.eviction == EvictionPolicy.value then
    StoreIfStatus.continue_
  else s

/-- VBucket::set (vbucket.cc): the front-end set path.  `predicate` is
the optional store-if predicate, modelled by the StoreIfStatus it would
return. -/
def VBucket.set (cfg : VBCfg) (st : KState) (itm : Item)
    (predicate : Option StoreIfStatus) (cookie : Option Nat) :
    Engine × KState :=
  if itm.pending && !durabilityPossible cfg.topology then
    (.durabilityImpossible, st)
  else
    let casOp := itm.cas != 0
    let storeIfStatus := match predicate with
      | none => StoreIfStatus.continue_
      | some s => callPredicate cfg s
    if predicate.isSome && storeIfStatus == StoreIfStatus.fail then
      (.predicateFailed, st)
    else
      let v : Option StoredValue := match st.sv with
        | some w =>
          if w.locked && (cfg.state == VBState.replica
              || cfg.state == VBState.pending) then
            some w.unlock
          else some w
        | none => none
      let st1 : KState := { st with sv := v }
      let maybeKeyExists := !(v.all StoredValue.isTempInitialItem
        && cfg.eviction == EvictionPolicy.full
        && (itm.cas != 0 || storeIfStatus == StoreIfStatus.getItemInfo)
        && !cfg.bloomMaybe)
      let res := processSet cfg st1 itm itm.cas true false cookie storeIfStatus
        maybeKeyExists
      setMapStatus cfg casOp (if itm.pending then .ewouldblock else .success) v res

/-- VBucket::deleteStoredValue (vbucket.cc): physical removal from the
hash table, refused when the value is locked and not already deleted. -/
def deleteStoredValue (st : KState) (v : StoredValue) : KState :=
  if !v.deleted && v.locked then st else { st with sv := none }

/-- Modelled from the spec: EPVBucket::softDeleteStoredValue: replaces
the value with a tombstone and queues the deletion (a durable
sync-delete queues a prepare and registers with the durability monitor,
per VBucket::queueDirty); `none` is DeletionStatus::IsPendingSyncWrite,
raised when the stored value is an in-flight prepare. -/
def softDeleteStoredValue (v : StoredValue) (durability : Option DurReq)
    (cookie : Option Nat) (st : KState) : Option KState :=
  if v.committed == CommittedState.pend then none
  else
    some
      { sv := some
          { v with deleted := true, locked := false, dirty := true,
                   temp := TempKind.notTemp,
                   committed := if durability.isSome then CommittedState.pend
                                else CommittedState.committedViaMutation }
        queued := st.queued ++
          [⟨if durability.isSome then QItemKind.prepareItem
            else QItemKind.mutationItem, 0⟩]
        tracked := st.tracked ++
          (match durability with
           | some d => [⟨0, d.deadline, cookie⟩]
           | none => []) }

/-- VBucket::processSoftDelete (vbucket.cc): bgfetch gate for
full-eviction temp-initial values, lock check, CAS check, then the soft
delete. -/
def processSoftDelete (cfg : VBCfg) (st : KState) (v0 : StoredValue)
    (cas : Nat) (durability : Option DurReq) (cookie : Option Nat) :
    MutationStatus × KState :=
  if v0.isTempInitialItem && cfg.eviction == EvictionPolicy.full then
    (.needBgFetch, st)
  else if v0.locked && cas != v0.cas then (.isLocked, st)
  else
    let v1 := v0.unlock
    if cas != 0 && cas != v1.cas then (.invalidCas, { st with sv := some v1 })
    else
      let rv := if v1.dirty then MutationStatus.wasDirty
                else MutationStatus.wasClean
      match softDeleteStoredValue v1 durability cookie { st with sv := some v1 } with
      | none => (.isPendingSyncWrite, { st with sv := some v1 })
      | some st2 => (rv, st2)

/-- VBucket::processExpiredItem (vbucket.cc): the on-write expiry path;
a full-eviction temp-initial value wants a bgfetch (the source still
queues it), otherwise the value is soft-deleted and NotFound is
reported (the deletion is still queued). -/
def processExpiredItem (cfg : VBCfg) (st : KState) (v : StoredValue) :
    MutationStatus × KState :=
  if v.isTempInitialItem && cfg.eviction == EvictionPolicy.full then
    (.needBgFetch, { st with queued := st.queued ++ [⟨QItemKind.mutationItem, 0⟩] })
  else
    match softDeleteStoredValue v none none st with
    | none => (.isPendingSyncWrite, st)
    | some st2 => (.notFound, st2)

/-- Requirements::isValid of the optional durability argument (the guard
`durability && durability->isValid()` of VBucket::deleteItem). -/
def durValid (durability : Option DurReq) : Bool :=
  match durability with
  | some d => d.valid
  | none => false

/-- The status-to-error-code mapping at the end of VBucket::deleteItem
(vbucket.cc); NeedBgFetch cannot occur (the source throws a logic
error there) and is mapped to Einval.  `ret0` is the success code
(Ewouldblock for a sync-delete, Success otherwise). -/
def deleteMapStatus (ret0 : Engine) (res : MutationStatus × KState) :
    Engine × KState :=
  match res.1 with
  | .noMem => (.enomem, res.2)
  | .invalidCas => (.keyEexists, res.2)
  | .isLocked => (.lockedTmpfail, res.2)
  | .notFound => (.keyEnoent, res.2)
  | .wasClean => (ret0, res.2)
  | .wasDirty => (ret0, res.2)
  | .needBgFetch => (.einval, res.2)
  | .isPendingSyncWrite => (.syncWriteInProgress, res.2)

/-- VBucket::deleteItem (vbucket.cc): the front-end delete path. -/
def VBucket.deleteItem (cfg : VBCfg) (st : KState) (cas : Nat)
    (durability : Option DurReq) (cookie : Option Nat) : Engine × KState :=
  if durValid durability && !durabilityPossible cfg.topology then
    (.durabilityImpossible, st)
  else
    match st.sv with
    | none =>
      if cfg.eviction == EvictionPolicy.value then (.keyEnoent, st)
      else if cfg.bloomMaybe then addTempItemAndBGFetch cfg st
      else (.keyEnoent, st)
    | some v =>
      if v.deleted || v.isTempItem || cfg.keyLogicallyDeleted then
        if cfg.eviction == EvictionPolicy.value then (.keyEnoent, st)
        else if v.isTempInitialItem then (.ewouldblock, st)
        else if v.isTempNonExistentItem || v.isTempDeletedItem then
          (.keyEnoent, deleteStoredValue st v)
        else (.keyEnoent, st)
      else
        let v1 := if v.locked && (cfg.state == VBState.replica
            || cfg.state == VBState.pending) then v.unlock else v
        let st1 : KState := { st with sv := some v1 }
        let res := if v1.expired then processExpiredItem cfg st1 v1
                   else processSoftDelete cfg st1 v1 cas durability cookie
        deleteMapStatus (if durability.isSome then .ewouldblock else .success) res

/-- VBucket::processAdd (vbucket.cc): the add-specific status logic. -/
def processAdd (cfg : VBCfg) (st : KState) (itm : Item)
    (maybeKeyExists : Bool) (cookie : Option Nat) : AddStatus × KState :=
  match st.sv with
  | some v =>
    if !v.deleted && !v.expired && !v.isTempItem
        && !cfg.keyLogicallyDeleted then
      (.exists_, st)
    else if !hasMemoryForStoredValue cfg.state false cfg.mem then (.noMem, st)
    else if v.isTempInitialItem && cfg.eviction == EvictionPolicy.full
        && maybeKeyExists then
      (.bgFetch, st)
    else
      let first := if v.deleted || v.expired then AddStatus.unDel
                   else AddStatus.success
      let res := updateStoredValue v itm cookie st
      (first, res.2)
  | none =>
    if !hasMemoryForStoredValue cfg.state false cfg.mem then (.noMem, st)
    else if !itm.tempInitItem && cfg.eviction == EvictionPolicy.full
        && maybeKeyExists then
      (.addTmpAndBgFetch, st)
    else if itm.tempInitItem then
      (.bgFetch, { st with sv := some tempInitialSV })
    else (.success, addNewStoredValue itm cookie st)

/-- The status-to-error-code mapping at the end of VBucket::add
(vbucket.cc); `ret0` is the success code. -/
def addMapStatus (cfg : VBCfg) (ret0 : Engine) (res : AddStatus × KState) :
    Engine × KState :=
  match res.1 with
  | .noMem => (.enomem, res.2)
  | .exists_ => (.notStored, res.2)
  | .addTmpAndBgFetch => addTempItemAndBGFetch cfg res.2
  | .bgFetch => (.ewouldblock, res.2)
  | .success => (ret0, res.2)
  | .unDel => (ret0, res.2)

/-- VBucket::add (vbucket.cc): the front-end add path. -/
def VBucket.add (cfg : VBCfg) (st : KState) (itm : Item)
    (cookie : Option Nat) : Engine × KState :=
  if itm.pending && !durabilityPossible cfg.topology then
    (.durabilityImpossible, st)
  else
    let maybeKeyExists := !(st.sv.all StoredValue.isTempInitialItem
      && cfg.eviction == EvictionPolicy.full && !cfg.bloomMaybe)
    let res := processAdd cfg st itm maybeKeyExists cookie
    addMapStatus cfg (if itm.pending then .ewouldblock else .success) res

/-- VBucket::isLogicallyNonExistent (vbucket.cc). -/
def isLogicallyNonExistent (cfg : VBCfg) (v : StoredValue) : Bool :=
  v.deleted || v.isTempDeletedItem || v.isTempNonExistentItem
    || cfg.keyLogicallyDeleted

/-- Modelled from the spec: HashTable::cleanupIfTemporaryItem: discards
temp markers (temp-deleted / temp-non-existent) once no longer useful. -/
def cleanupIfTemporaryItem (st : KState) (v : StoredValue) : KState :=
  if v.isTempDeletedItem || v.isTempNonExistentItem then
    { st with sv := none }
  else st

/-- The status-to-error-code mapping at the end of VBucket::replace
(vbucket.cc); `ret0` is the success code. -/
def replaceMapStatus (ret0 : Engine) (res : MutationStatus × KState) :
    Engine × KState :=
  match res.1 with
  | .noMem => (.enomem, res.2)
  | .isLocked => (.locked, res.2)
  | .invalidCas => (.notStored, res.2)
  | .notFound => (.notStored, res.2)
  | .wasDirty => (ret0, res.2)
  | .wasClean => (ret0, res.2)
  | .needBgFetch => (.ewouldblock, res.2)
  | .isPendingSyncWrite => (.syncWriteInProgress, res.2)

/-- VBucket::replace (vbucket.cc): the front-end replace path. -/
def VBucket.replace (cfg : VBCfg) (st : KState) (itm : Item)
    (predicate : Option StoreIfStatus) (cookie : Option Nat) :
    Engine × KState :=
  if itm.pending && !durabilityPossible cfg.topology then
    (.durabilityImpossible, st)
  else
    let storeIfStatus := match predicate with
      | none => StoreIfStatus.continue_
      | some s => callPredicate cfg s
    if predicate.isSome && storeIfStatus == StoreIfStatus.fail then
      (.predicateFailed, st)
    else
      match st.sv with
      | some v =>
        if isLogicallyNonExistent cfg v then
          (.keyEnoent, cleanupIfTemporaryItem st v)
        else
          let res :=
            if cfg.eviction == EvictionPolicy.full && v.isTempInitialItem then
              (MutationStatus.needBgFetch, st)
            else processSet cfg st itm 0 true false cookie storeIfStatus true
          replaceMapStatus (if itm.pending then .ewouldblock else .success) res
      | none =>
        if cfg.eviction == EvictionPolicy.value then (.keyEnoent, st)
        else if cfg.bloomMaybe then addTempItemAndBGFetch cfg st
        else (.keyEnoent, st)

/-- Modelled from the spec: EPVBucket::commitStoredValue: replaces the
Pending value at the key with its committed form and enqueues the
commit item. -/
def commitStoredValue (v : StoredValue) (pendingSeqno : Nat) (st : KState) :
    KState :=
  { st with
    sv := some { v with committed := CommittedState.committedViaPrepare,
                        dirty := true }
    queued := st.queued ++ [⟨QItemKind.commitItem, pendingSeqno⟩] }

/-- VBucket::commit (vbucket.cc): KeyEnoent when no stored value exists,
Einval when the stored value is not Pending, otherwise the Pending value
is committed, a commit item is queued and the client cookie (if any) is
notified Success.  The third component lists the client notifications. -/
def VBucket.commit (st : KState) (pendingSeqno : Nat) (cookie : Option Nat) :
    Engine × KState × List (Nat × Engine) :=
  match st.sv with
  | none => (.keyEnoent, st, [])
  | some v =>
    if v.committed != CommittedState.pend then (.einval, st, [])
    else
      (.success, commitStoredValue v pendingSeqno st,
       match cookie with
       | some c => [(c, Engine.success)]
       | none => [])

/-- Modelled from the spec: EPVBucket::abortStoredValue: removes the
pending value and enqueues an abort tombstone carrying prepareSeqno
(VBucket::queueAbort, vbucket.cc, sets the prepare seqno on the abort
item). -/
def abortStoredValue (prepareSeqno : Nat) (st : KState) : KState :=
  { st with sv := none
            queued := st.queued ++ [⟨QItemKind.abortItem, prepareSeqno⟩] }

/-- VBucket::abort (vbucket.cc): KeyEnoent when no stored value exists,
Einval when the stored value is not Pending, otherwise the pending value
is removed, an abort item carrying prepareSeqno is queued and the client
cookie (if any) is notified SyncWriteAmbiguous. -/
def VBucket.abort (st : KState) (prepareSeqno : Nat) (cookie : Option Nat) :
    Engine × KState × List (Nat × Engine) :=
  match st.sv with
  | none => (.keyEnoent, st, [])
  | some v =>
    if v.committed != CommittedState.pend then (.einval, st, [])
    else
      (.success, abortStoredValue prepareSeqno st,
       match cookie with
       | some c => [(c, Engine.syncWriteAmbiguous)]
       | none => [])

/-- A JSON value (the nlohmann::json shape the sources manipulate);
objects are key/value lists looked up by key. -/
inductive Json
  | null
  | boolVal (b : Bool)
  | str (s : String)
  | num (n : Nat)
  | arr (xs : List Json)
  | obj (kvs : List (String × Json))
deriving Repr

/-- A JSON node is a string. -/
def Json.isStr : Json → Bool
  | .str _ => true
  | _ => false

/-- A JSON node is a string or null (a defined replica or an unfilled
slot). -/
def Json.isStrOrNull : Json → Bool
  | .str _ => true
  | .null => true
  | _ => false

/-- Node loop of VBucket::validateReplicationTopology: strings pass,
null is rejected at the active (first) position only, anything else is
rejected.  The first argument is the node index. -/
def validateNodes : Nat → List Json → Option String
  | _, [] => none
  | i, Json.str _ :: rest => validateNodes (i + 1) rest
  | 0, Json.null :: _ => some "node 0 (active) cannot be null"
  | i + 1, Json.null :: rest => validateNodes (i + 2) rest
  | _, _ :: _ => some "node must be a string"

/-- Chain check of VBucket::validateReplicationTopology: an array of
1..4 nodes. -/
def validateChain (nodes : Json) : Option String :=
  match nodes with
  | Json.arr ns =>
    if ns.length < 1 || ns.length > 4 then some "chain must contain 1..4 nodes"
    else validateNodes 0 ns
  | _ => some "chain must be an array"

/-- Chain loop of VBucket::validateReplicationTopology (first failing
chain wins). -/
def validateChains : List Json → Option String
  | [] => none
  | c :: rest =>
    match validateChain c with
    | some e => some e
    | none => validateChains rest

/-- VBucket::validateReplicationTopology (vbucket.cc): an array of 1..2
chains, each an array of 1..4 nodes, strings or null with a non-null
active. -/
def validateReplicationTopology (topology : Json) : Option String :=
  match topology with
  | Json.arr chains =>
    if chains.length < 1 || chains.length > 2 then
      some "topology must contain 1..2 elements"
    else validateChains chains
  | _ => some "topology must be an array"

/-- The node names (defined entries) of a chain given as a JSON node
list. -/
def chainNames (ns : List Json) : List String :=
  ns.filterMap (fun j => match j with | Json.str s => some s | _ => none)

/-- Modelled from the spec: the duplicate-node check of
ActiveDurabilityMonitor::setReplicationTopology (its implementation file
is not among the sources; the module tests expect an invalid_argument
"Duplicate node" error): no node name may be duplicated within a single
chain. -/
def chainsHaveNoDuplicates (chains : List Json) : Bool :=
  chains.all (fun c =>
    match c with
    | Json.arr ns => decide (chainNames ns).Nodup
    | _ => true)

/-- The durability-monitor chain built from a JSON chain: defined slots
carry the node name, null slots are undefined. -/
def toChain (ns : List Json) : Chain :=
  ns.map (fun j => match j with | Json.str s => some s | _ => none)

/-- The durability-monitor chains built from a topology JSON array. -/
def toChains (j : Json) : List Chain :=
  match j with
  | Json.arr cs =>
    cs.filterMap (fun c =>
      match c with
      | Json.arr ns => some (toChain ns)
      | _ => none)
  | _ => []

/-- VBucket::setState on a transition to Active with a topology meta
(setState_UNLOCKED + setupSyncReplication, vbucket.cc): the shape is
validated by validateReplicationTopology (rejection throws
invalid_argument before anything is installed); on the install path the
topology is handed to the durability monitor, whose (spec-modelled)
duplicate-node check throws invalid_argument leaving the monitor's
chains unchanged.  Returns the error (if any) and the resulting
durability-monitor chains. -/
def setStateActiveTopology (topology : Json) (dm : List Chain) :
    Option String × List Chain :=
  match validateReplicationTopology topology with
  | some e => (some e, dm)
  | none =>
    match topology with
    | Json.arr chains =>
      if chainsHaveNoDuplicates chains then (none, toChains topology)
      else (some "Duplicate node", dm)
    | _ => (some "topology must be an array", dm)

/-- The acceptance condition as the spec words it (section 6): a JSON
array of 1..2 chains; each chain an array of 1..4 entries; the first
entry of each chain a non-null string; every other entry null or a
string; no node name duplicated within a single chain. -/
def specTopologyOk (j : Json) : Bool :=
  match j with
  | Json.arr chains =>
    decide (1 ≤ chains.length) && decide (chains.length ≤ 2) &&
    chains.all (fun c =>
      match c with
      | Json.arr ns =>
        decide (1 ≤ ns.length) && decide (ns.length ≤ 4) &&
        (match ns.head? with
         | some n => n.isStr
         | none => false) &&
        ns.all Json.isStrOrNull &&
        decide (chainNames ns).Nodup
      | _ => false)
  | _ => false

/-- A character the manifest name validator accepts
(Collections::Manifest::validName, manifest.cc): `std::isdigit ||
std::isalpha` in the C locale (ASCII digits and letters) or one of
underscore, hyphen, percent, dollar. -/
def validChar (c : Char) : Bool :=
  c.isDigit || c.isAlpha || c == '_' || c == '-' || c == '%' || c == '$'

/-- Collections::Manifest::validName (manifest.cc), parameterised by the
maximum name size (the MaxCollectionNameSize constant lives in a header
that is not among the sources): rejects the empty name, over-long
names and names starting with a dollar sign, then requires every
character to be valid. -/
def validName (maxSize : Nat) (name : List Char) : Bool :=
  match name with
  | [] => false
  | c :: _ =>
    if name.length > maxSize then false
    else if c == '$' then false
    else name.all validChar

/-- Lowercase hex digit character for a value below 16, as the stream
insertion with std::hex in Manifest::toJson prints. -/
def hexDigit (n : Nat) : Char :=
  if n < 10 then Char.ofNat (48 + n) else Char.ofNat (87 + n)

/-- Hex digits of `n`, most significant first, prepended to `acc`
(empty for 0); structural recursion on a fuel bound of at least `n`. -/
def toHexAux : Nat → Nat → List Char → List Char
  | _, 0, acc => acc
  | 0, _ + 1, acc => acc
  | fuel + 1, n + 1, acc =>
    toHexAux fuel ((n + 1) / 16) (hexDigit ((n + 1) % 16) :: acc)

/-- Modelled from the spec: the hex encoding of manifest uids ("uids are
hex strings"); the lowercase digits `std::hex` prints, "0" for zero. -/
def toHex (n : Nat) : List Char :=
  if n = 0 then ['0'] else toHexAux n n []

/-- Hex value of one character, none for a non-hex character. -/
def hexVal (c : Char) : Option Nat :=
  if '0' ≤ c && c ≤ '9' then some (c.toNat - 48)
  else if 'a' ≤ c && c ≤ 'f' then some (c.toNat - 87)
  else if 'A' ≤ c && c ≤ 'F' then some (c.toNat - 55)
  else none

/-- Most-significant-first accumulation of hex digits. -/
def fromHexCore : List Char → Nat → Option Nat
  | [], acc => some acc
  | c :: rest, acc =>
    match hexVal c with
    | some d => fromHexCore rest (acc * 16 + d)
    | none => none

/-- Modelled from the spec: Collections::makeUid / makeScopeID /
makeCollectionID (collections_types, not among the sources) parse a uid
from its hex-string form; the empty string is rejected. -/
def fromHex (cs : List Char) : Option Nat :=
  if cs.isEmpty then none else fromHexCore cs 0

/-- One collection entry held by a scope of the bucket manifest: its
collection id and optional maxTtl (Manifest::CollectionEntry). -/
structure CollectionEntry where
  cid : Nat
  maxTtl : Option Nat
deriving DecidableEq, Repr

/-- A scope of the bucket manifest: its name and collections
(Manifest::Scope). -/
structure MScope where
  name : String
  collections : List CollectionEntry
deriving DecidableEq, Repr

/-- The bucket manifest (Collections::Manifest): its uid, the scope map
(keyed by scope id, iterated in key order as std::map does), the global
collection-id to name map, and the default-collection flag. -/
structure Manifest where
  uid : Nat
  scopes : List (Nat × MScope)
  collections : List (Nat × String)
  defaultCollectionExists : Bool
deriving DecidableEq, Repr

/-- The JSON value types the manifest parser distinguishes
(nlohmann::json::value_t). -/
inductive JType
  | nullT
  | boolT
  | strT
  | numT
  | arrT
  | objT
deriving DecidableEq, Repr

/-- Type tag of a JSON value. -/
def Json.typeIs : Json → JType
  | .null => .nullT
  | .boolVal _ => .boolT
  | .str _ => .strT
  | .num _ => .numT
  | .arr _ => .arrT
  | .obj _ => .objT

/-- Key lookup in a JSON object. -/
def Json.lookupKey (j : Json) (key : String) : Option Json :=
  match j with
  | Json.obj kvs => kvs.lookup key
  | _ => none

/-- getJsonObject (manifest.cc helper over cb::getJsonObject): the value
at `key`, which must exist and have the expected type. -/
def getJsonObject (j : Json) (key : String) (expected : JType) :
    Except String Json :=
  match j.lookupKey key with
  | none => Except.error ("key not found: " ++ key)
  | some v =>
    if v.typeIs == expected then Except.ok v
    else Except.error ("wrong type at key: " ++ key)

/-- cb::getOptionalJsonObject: the value at `key` when present, which
must then have the expected type. -/
def getOptionalJsonObject (j : Json) (key : String) (expected : JType) :
    Except String (Option Json) :=
  match j.lookupKey key with
  | none => Except.ok none
  | some v =>
    if v.typeIs == expected then Except.ok (some v)
    else Except.error ("wrong type at key: " ++ key)

/-- Insertion into a key-sorted association list: the std::map `emplace`
of the manifest constructor keeps entries ordered by key. -/
def insertSorted {α : Type} (k : Nat) (v : α) :
    List (Nat × α) → List (Nat × α)
  | [] => [(k, v)]
  | (k2, v2) :: rest =>
    if k < k2 then (k, v) :: (k2, v2) :: rest
    else (k2, v2) :: insertSorted k v rest

/-- The collection loop of the Manifest constructor (manifest.cc):
checks each collection object of a scope in source order — object shape,
name and uid fields, optional max_ttl, name validity, the forbidden
System id (1), global collection-uid uniqueness, name uniqueness within
the scope, the default-collection-in-default-scope rule and the 32-bit
max_ttl bound — accumulating the global collection map, the scope's
collection vector and the default-collection flag. -/
def parseCollections (maxSz : Nat) (sid : Nat) :
    List Json → List (Nat × String) → List CollectionEntry → Bool →
    Except String (List (Nat × String) × List CollectionEntry × Bool)
  | [], cols, scopeCols, dflt => Except.ok (cols, scopeCols, dflt)
  | c :: rest, cols, scopeCols, dflt =>
    match c with
    | Json.obj _ => do
      let cnameJ ← getJsonObject c "name" JType.strT
      let cuidJ ← getJsonObject c "uid" JType.strT
      let cmaxttl ← getOptionalJsonObject c "max_ttl" JType.numT
      match cnameJ, cuidJ with
      | Json.str cname, Json.str cuid =>
        if !validName maxSz cname.data then
          Except.error ("collection name is not valid: " ++ cname)
        else
          match fromHex cuid.data with
          | none => Except.error ("collection uid is not hex: " ++ cuid)
          | some cid =>
            if cid == 1 then
              Except.error "collection uid is not valid: System"
            else if (cols.lookup cid).isSome then
              Except.error ("duplicate collection uid: " ++ cuid)
            else if scopeCols.any (fun e =>
                match cols.lookup e.cid with
                | some n => n == cname
                | none => false) then
              Except.error ("duplicate collection name: " ++ cname)
            else if cid == 0 && sid != 0 then
              Except.error "default collection is not in the default scope"
            else
              match cmaxttl with
              | some (Json.num t) =>
                if t > 4294967295 then
                  Except.error "max_ttl out of range"
                else
                  parseCollections maxSz sid rest (insertSorted cid cname cols)
                    (scopeCols ++ [⟨cid, some t⟩]) (dflt || cid == 0)
              | some _ => Except.error "max_ttl wrong type"
              | none =>
                parseCollections maxSz sid rest (insertSorted cid cname cols)
                  (scopeCols ++ [⟨cid, none⟩]) (dflt || cid == 0)
      | _, _ => Except.error "collection fields wrong type"
    | _ => Except.error "collection entry must be an object"

/-- The scope loop of the Manifest constructor (manifest.cc): checks
each scope object in source order — object shape, name and uid fields,
name validity, scope-uid and scope-name uniqueness, the collections
array and the running collection-count bound — then parses the
collections and accumulates the scope map. -/
def parseScopes (maxSz maxCols : Nat) :
    List Json → List (Nat × MScope) → List (Nat × String) → Bool →
    Except String (List (Nat × MScope) × List (Nat × String) × Bool)
  | [], scopes, cols, dflt => Except.ok (scopes, cols, dflt)
  | s :: rest, scopes, cols, dflt =>
    match s with
    | Json.obj _ => do
      let nameJ ← getJsonObject s "name" JType.strT
      let uidJ ← getJsonObject s "uid" JType.strT
      match nameJ, uidJ with
      | Json.str name, Json.str uidS =>
        if !validName maxSz name.data then
          Except.error ("scope name is not valid: " ++ name)
        else
          match fromHex uidS.data with
          | none => Except.error ("scope uid is not hex: " ++ uidS)
          | some sid =>
            if (scopes.lookup sid).isSome then
              Except.error ("duplicate scope uid: " ++ uidS)
            else if scopes.any (fun p => p.2.name == name) then
              Except.error ("duplicate scope name: " ++ name)
            else do
              let colsJ ← getJsonObject s "collections" JType.arrT
              match colsJ with
              | Json.arr colsList =>
                if colsList.length + cols.length > maxCols then
                  Except.error "too many collections"
                else do
                  let r ← parseCollections maxSz sid colsList cols [] dflt
                  parseScopes maxSz maxCols rest
                    (insertSorted sid ⟨name, r.2.1⟩ scopes) r.1 r.2.2
              | _ => Except.error "collections must be an array"
      | _, _ => Except.error "scope fields wrong type"
    | _ => Except.error "scope entry must be an object"

/-- The Manifest constructor (manifest.cc) over a parsed JSON document:
reads the uid, bounds the scope count, runs the scope loop, then
requires a non-empty scope map containing the default scope (id 0). -/
def parseManifest (maxSz maxScopes maxCols : Nat) (j : Json) :
    Except String Manifest := do
  let uidJ ← getJsonObject j "uid" JType.strT
  match uidJ with
  | Json.str uidS =>
    match fromHex uidS.data with
    | none => Except.error ("manifest uid is not hex: " ++ uidS)
    | some uid => do
      let scopesJ ← getJsonObject j "scopes" JType.arrT
      match scopesJ with
      | Json.arr scopesList =>
        if scopesList.length > maxScopes then
          Except.error "too many scopes"
        else do
          let r ← parseScopes maxSz maxCols scopesList [] [] false
          if r.1.isEmpty then
            Except.error "no scopes were defined in the manifest"
          else if (r.1.lookup 0).isNone then
            Except.error "the default scope was not defined"
          else Except.ok ⟨uid, r.1, r.2.1, r.2.2⟩
      | _ => Except.error "scopes must be an array"
  | _ => Except.error "manifest uid wrong type"

/-- The JSON object Manifest::toJson (manifest.cc) emits for one
collection entry: name, uid (hex), and max_ttl when present. -/
def collectionToJson (cols : List (Nat × String)) (ce : CollectionEntry) :
    Json :=
  Json.obj
    ([("name", Json.str ((cols.lookup ce.cid).getD "")),
      ("uid", Json.str (String.mk (toHex ce.cid)))] ++
     (match ce.maxTtl with
      | some t => [("max_ttl", Json.num t)]
      | none => []))

/-- Manifest::toJson (manifest.cc), at the JSON-value level: the uid as
a hex string and the scopes in map (key) order, each with its name, hex
uid and collection list in stored order. -/
def Manifest.toJson (m : Manifest) : Json :=
  Json.obj
    [("uid", Json.str (String.mk (toHex m.uid))),
     ("scopes", Json.arr (m.scopes.map (fun p =>
       Json.obj
         [("name", Json.str p.2.name),
          ("uid", Json.str (String.mk (toHex p.1))),
          ("collections",
           Json.arr (p.2.collections.map (collectionToJson m.collections)))])))]

/-- The character class of the spec's name rule: an ASCII letter, an
ASCII digit, or one of underscore, hyphen, percent, dollar. -/
def specNameChar (c : Char) : Prop :=
  ('A' ≤ c ∧ c ≤ 'Z') ∨ ('a' ≤ c ∧ c ≤ 'z') ∨ ('0' ≤ c ∧ c ≤ '9') ∨
  c = '_' ∨ c = '-' ∨ c = '%' ∨ c = '$'

/-- The spec's per-chain condition: an array of 1..4 entries, first a
string, the rest strings or null, and no duplicate node name. -/
def specChainOk (c : Json) : Bool :=
  match c with
  | Json.arr ns =>
    decide (1 ≤ ns.length) && decide (ns.length ≤ 4) &&
    (match ns.head? with
     | some n => n.isStr
     | none => false) &&
    ns.all Json.isStrOrNull &&
    decide (chainNames ns).Nodup
  | _ => false

def memSample : MemCfg := ⟨0, 100, 1, 1⟩

def cfgSample : VBCfg :=
  ⟨VBState.active, EvictionPolicy.value, memSample, true, true, true, false, []⟩

def svExpiredSample : StoredValue :=
  ⟨5, false, TempKind.notTemp, true, false, false, true,
    CommittedState.committedViaMutation⟩

def itmCas7 : Item := ⟨7, false, false, false, 0, ⟨false, none⟩⟩

def svDeletedSample : StoredValue :=
  ⟨5, true, TempKind.notTemp, false, false, false, true,
    CommittedState.committedViaMutation⟩

def itmCas0 : Item := ⟨0, false, false, false, 0, ⟨false, none⟩⟩

def itmDelCas5 : Item := ⟨5, true, false, false, 0, ⟨false, none⟩⟩

def svTempNESample : StoredValue :=
  ⟨5, false, TempKind.tempNonExistent, false, false, false, true,
    CommittedState.committedViaMutation⟩

/-! ## Manifest round-trip infrastructure -/

/-- Key order on association-list entries: strictly increasing ids. -/

def keyLt {α : Type} (p q : Nat × α) : Prop :=
  p.1 < q.1

instance {α : Type} (p q : Nat × α) : Decidable (keyLt p q) :=
  inferInstanceAs (Decidable (p.1 < q.1))

instance {α : Type} : DecidableRel (@keyLt α) :=
  fun p q => inferInstanceAs (Decidable (p.1 < q.1))

instance {α : Type} : IsAntisymm (Nat × α) keyLt where
  antisymm _ _ h1 h2 := absurd (Nat.lt_trans h1 h2) (Nat.lt_irrefl _)

/-- 16 to the power of the number of hex digits of `n` (1 for 0). -/

def hexB : Nat → Nat
  | 0 => 1
  | n + 1 => 16 * hexB ((n + 1) / 16)
decreasing_by exact Nat.div_lt_self (Nat.succ_pos n) (by omega)

/-- Repeated sorted insertion of a list of entries. -/

def insertAll {α : Type} (l : List (Nat × α)) (ps : List (Nat × α)) :
    List (Nat × α) :=
  ps.foldl (fun acc p => insertSorted p.1 p.2 acc) l

/-- The name Manifest::toJson prints for a collection entry: the global
collection map looked up at its id. -/

def entryName (gcols : List (Nat × String)) (ce : CollectionEntry) : String :=
  (gcols.lookup ce.cid).getD ""

/-- The (id, name) pairs of one scope of the manifest. -/

def scopePairs (gcols : List (Nat × String)) (sc : MScope) :
    List (Nat × String) :=
  sc.collections.map (fun ce => (ce.cid, entryName gcols ce))

/-- The (id, name) pairs of a scope list, in scope order. -/

def allPairs (gcols : List (Nat × String)) :
    List (Nat × MScope) → List (Nat × String)
  | [] => []
  | p :: rest => scopePairs gcols p.2 ++ allPairs gcols rest

/-- The JSON object Manifest::toJson emits for one scope. -/

def scopeJson (gcols : List (Nat × String)) (p : Nat × MScope) : Json :=
  Json.obj
    [("name", Json.str p.2.name),
     ("uid", Json.str (String.mk (toHex p.1))),
     ("collections", Json.arr (p.2.collections.map (collectionToJson gcols)))]

/-- A well-formed manifest: the shape invariants the Manifest constructor
establishes — key-sorted scope map, the global collection map is exactly
the sorted insertion of every scope entry with globally unique ids, the
default scope exists, names are valid and duplicate-free (scope names
globally, collection names per scope), no collection uses the System id
(1), the default collection (id 0) only sits in the default scope, maxTtl
fits 32 bits, and the default-collection flag matches the map. -/

def Manifest.wf (maxSz : Nat) (m : Manifest) : Prop :=
  List.Pairwise keyLt m.scopes ∧
  List.Pairwise keyLt m.collections ∧
  ((allPairs m.collections m.scopes).map Prod.fst).Nodup ∧
  m.collections = insertAll [] (allPairs m.collections m.scopes) ∧
  (m.scopes.lookup 0).isSome = true ∧
  (∀ p ∈ m.scopes, validName maxSz p.2.name.data = true) ∧
  (m.scopes.map (fun p => p.2.name)).Nodup ∧
  (∀ p ∈ m.scopes, ((scopePairs m.collections p.2).map Prod.snd).Nodup) ∧
  (∀ p ∈ m.scopes, ∀ ce ∈ p.2.collections, ce.cid ≠ 1) ∧
  (∀ p ∈ m.scopes, ∀ ce ∈ p.2.collections, ce.cid = 0 → p.1 = 0) ∧
  (∀ p ∈ m.scopes, ∀ ce ∈ p.2.collections, ce.maxTtl.getD 0 ≤ 4294967295) ∧
  (∀ p ∈ m.collections, validName maxSz p.2.data = true) ∧
  m.defaultCollectionExists = (m.collections.lookup 0).isSome

def mSample : Manifest :=
  ⟨26,
   [(0, ⟨"_default", [⟨0, none⟩, ⟨8, some 100⟩]⟩),
    (9, ⟨"shop", [⟨10, none⟩]⟩)],
   [(0, "_default"), (8, "beer"), (10, "wine")], true⟩

def mSamplePerm : Manifest :=
  ⟨26,
   [(9, ⟨"shop", [⟨10, none⟩]⟩),
    (0, ⟨"_default", [⟨0, none⟩, ⟨8, some 100⟩]⟩)],
   [(8, "beer"), (0, "_default"), (10, "wine")], false⟩

/-! ## Theorems -/

/-- validChar agrees with the spec's character class. -/
theorem validChar_iff (c : Char) : validChar c = true ↔ specNameChar c := by
  simp [validChar, Char.isDigit, Char.isAlpha, Char.isUpper, Char.isLower,
    specNameChar, Char.le_def, ge_iff_le]
  tauto

/-- C9: for every string, the scope/collection name validator accepts it
if and only if it is non-empty, has length at most the maximum name
size, does not start with a dollar sign, and every character is an ASCII
letter, an ASCII digit, or one of underscore, hyphen, percent,
dollar. -/
theorem valid_name_accepts_iff (maxSize : Nat) (name : List Char) :
    validName maxSize name = true ↔
      name ≠ [] ∧ name.length ≤ maxSize ∧ name.head? ≠ some '$' ∧
      ∀ c ∈ name, specNameChar c := by
  cases name with
  | nil => simp [validName]
  | cons c rest =>
    by_cases hlen : (c :: rest).length > maxSize
    · simp only [validName, if_pos hlen]
      constructor
      · intro h; exact absurd h (by simp)
      · intro h; omega
    · by_cases hc : c = '$'
      · simp [validName, if_neg hlen, hc]
      · simp only [validName, if_neg hlen, beq_iff_eq, if_neg hc,
          List.all_eq_true, List.head?]
        constructor
        · intro h
          refine ⟨by simp, by omega, by simp [hc],
            fun x hx => (validChar_iff x).mp (h x hx)⟩
        · intro ⟨_, _, _, h4⟩
          exact fun x hx => (validChar_iff x).mpr (h4 x hx)

/-- Tail positions of the topology node loop: past the active slot,
validation succeeds exactly when every node is a string or null. -/
theorem validateNodes_tail (ns : List Json) :
    ∀ i, validateNodes (i + 1) ns = none ↔
      ∀ n ∈ ns, n.isStrOrNull = true := by
  induction ns with
  | nil => intro i; simp [validateNodes]
  | cons n rest ih =>
    intro i
    cases n with
    | str s => simpa [validateNodes, Json.isStrOrNull] using ih (i + 1)
    | null => simpa [validateNodes, Json.isStrOrNull] using ih (i + 1)
    | boolVal b => simp [validateNodes, Json.isStrOrNull]
    | num k => simp [validateNodes, Json.isStrOrNull]
    | arr xs => simp [validateNodes, Json.isStrOrNull]
    | obj kvs => simp [validateNodes, Json.isStrOrNull]

/-- From the head of the node loop: the active slot must be a string,
the rest strings or null. -/
theorem validateNodes_zero (ns : List Json) :
    validateNodes 0 ns = none ↔
      (match ns with
       | [] => True
       | n :: rest => n.isStr = true ∧ ∀ m ∈ rest, m.isStrOrNull = true) := by
  cases ns with
  | nil => simp [validateNodes]
  | cons n rest =>
    cases n with
    | str s => simpa [validateNodes, Json.isStr] using validateNodes_tail rest 0
    | null => simp [validateNodes, Json.isStr]
    | boolVal b => simp [validateNodes, Json.isStr]
    | num k => simp [validateNodes, Json.isStr]
    | arr xs => simp [validateNodes, Json.isStr]
    | obj kvs => simp [validateNodes, Json.isStr]

/-- The chain loop succeeds exactly when every chain validates. -/
theorem validateChains_iff (cs : List Json) :
    validateChains cs = none ↔ ∀ c ∈ cs, validateChain c = none := by
  induction cs with
  | nil => simp [validateChains]
  | cons c rest ih =>
    simp only [validateChains]
    cases h : validateChain c with
    | none => simp [h, ih]
    | some e => simp [h]

/-- A chain passes validateChain together with the duplicate-node check
exactly when it satisfies the spec's per-chain condition. -/
theorem chain_ok_iff (c : Json) :
    (validateChain c = none ∧
      (match c with
       | Json.arr ns => (chainNames ns).Nodup
       | _ => True)) ↔ specChainOk c = true := by
  cases c with
  | arr ns =>
    simp only [validateChain, specChainOk, Bool.and_eq_true, decide_eq_true_eq,
      List.all_eq_true]
    by_cases hlen : ns.length < 1 || ns.length > 4
    · constructor
      · intro ⟨h, _⟩; rw [if_pos hlen] at h; exact absurd h (by simp)
      · intro ⟨⟨⟨⟨h1, h2⟩, _⟩, _⟩, _⟩
        exfalso; simp only [Bool.or_eq_true, decide_eq_true_eq] at hlen; omega
    · rw [if_neg hlen]
      simp only [Bool.or_eq_true, decide_eq_true_eq, not_or, not_lt] at hlen
      rw [validateNodes_zero ns]
      cases ns with
      | nil => simp at hlen
      | cons n rest =>
        constructor
        · intro ⟨⟨h1, h2⟩, hnd⟩
          refine ⟨⟨⟨⟨by omega, by omega⟩, by simpa using h1⟩, ?_⟩, hnd⟩
          intro x hx
          rcases List.mem_cons.mp hx with rfl | hx2
          · cases x <;> simp_all [Json.isStr, Json.isStrOrNull]
          · exact h2 x hx2
        · intro ⟨⟨⟨⟨_, _⟩, h3⟩, h4⟩, hnd⟩
          refine ⟨⟨by simpa using h3,
            fun m hm => h4 m (List.mem_cons_of_mem _ hm)⟩, hnd⟩
  | null => simp [validateChain, specChainOk]
  | boolVal b => simp [validateChain, specChainOk]
  | str s => simp [validateChain, specChainOk]
  | num k => simp [validateChain, specChainOk]
  | obj kvs => simp [validateChain, specChainOk]

/-- specTopologyOk unpacked into its three conditions. -/
theorem specTopologyOk_eq (j : Json) :
    specTopologyOk j = true ↔
      (match j with
       | Json.arr chains =>
         1 ≤ chains.length ∧ chains.length ≤ 2 ∧
           ∀ c ∈ chains, specChainOk c = true
       | _ => False) := by
  cases j with
  | arr chains =>
    simp only [specTopologyOk, specChainOk, Bool.and_eq_true, decide_eq_true_eq,
      List.all_eq_true]
    tauto
  | null => simp [specTopologyOk]
  | boolVal b => simp [specTopologyOk]
  | str s => simp [specTopologyOk]
  | num k => simp [specTopologyOk]
  | obj kvs => simp [specTopologyOk]

/-- C7: a replication topology supplied as meta on a transition to
Active is accepted (no invalid-argument error from the setState path)
if and only if it is a JSON array of 1..2 chains, each chain an array of
1..4 entries, the first entry of each chain a non-null string, every
other entry null or a string, and no node name duplicated within a
single chain; on rejection the durability monitor's chains are left
unchanged. -/
theorem topology_accepted_iff_spec_shape (j : Json) (dm : List Chain) :
    ((setStateActiveTopology j dm).1 = none ↔ specTopologyOk j = true) ∧
      ((setStateActiveTopology j dm).1 ≠ none →
        (setStateActiveTopology j dm).2 = dm) := by
  cases j with
  | arr chains =>
    rw [specTopologyOk_eq]
    simp only [setStateActiveTopology, validateReplicationTopology]
    by_cases hlen : chains.length < 1 || chains.length > 2
    · rw [if_pos hlen]
      simp only [Bool.or_eq_true, decide_eq_true_eq] at hlen
      constructor
      · constructor
        · intro h; exact absurd h (by simp)
        · intro ⟨h1, h2, _⟩; omega
      · intro _; rfl
    · rw [if_neg hlen]
      simp only [Bool.or_eq_true, decide_eq_true_eq, not_or, not_lt] at hlen
      cases hv : validateChains chains with
      | some e =>
        constructor
        · constructor
          · intro h; exact absurd h (by simp)
          · intro ⟨_, _, h3⟩
            have := (validateChains_iff chains).mpr
              (fun c hc => ((chain_ok_iff c).mpr (h3 c hc)).1)
            rw [hv] at this; exact absurd this (by simp)
        · intro _; rfl
      | none =>
        have hval : ∀ c ∈ chains, validateChain c = none :=
          (validateChains_iff chains).mp hv
        by_cases hdup : chainsHaveNoDuplicates chains
        · rw [if_pos hdup]
          simp only [chainsHaveNoDuplicates, List.all_eq_true] at hdup
          constructor
          · constructor
            · intro _
              refine ⟨hlen.1, hlen.2,
                fun c hc => (chain_ok_iff c).mp ⟨hval c hc, ?_⟩⟩
              have := hdup c hc
              cases c <;> simp_all
            · intro _; rfl
          · intro h; exact absurd rfl h
        · rw [if_neg hdup]
          simp only [chainsHaveNoDuplicates, List.all_eq_true, not_forall] at hdup
          constructor
          · constructor
            · intro h; exact absurd h (by simp)
            · intro ⟨_, _, h3⟩
              obtain ⟨c, hc, hnd⟩ := hdup
              have := (chain_ok_iff c).mpr (h3 c hc)
              cases c <;> simp_all
          · intro _; rfl
  | null =>
    simp [setStateActiveTopology, validateReplicationTopology, specTopologyOk]
  | boolVal b =>
    simp [setStateActiveTopology, validateReplicationTopology, specTopologyOk]
  | str s =>
    simp [setStateActiveTopology, validateReplicationTopology, specTopologyOk]
  | num k =>
    simp [setStateActiveTopology, validateReplicationTopology, specTopologyOk]
  | obj kvs =>
    simp [setStateActiveTopology, validateReplicationTopology, specTopologyOk]

theorem addTemp_code (cfg : VBCfg) (st : KState) :
    (addTempItemAndBGFetch cfg st).1 = Engine.enomem ∨
    (addTempItemAndBGFetch cfg st).1 = Engine.ewouldblock := by
  unfold addTempItemAndBGFetch addTempStoredValue
  cases cfg.tempMemOk <;> simp

theorem setMapStatus_ne_dimp (cfg : VBCfg) (casOp : Bool) (ret0 : Engine)
    (v : Option StoredValue) (res : MutationStatus × KState)
    (h0 : ret0 ≠ Engine.durabilityImpossible) :
    (setMapStatus cfg casOp ret0 v res).1 ≠ Engine.durabilityImpossible := by
  unfold setMapStatus
  cases res.1 with
  | noMem => simp
  | invalidCas => simp
  | isLocked => simp
  | notFound => cases casOp <;> simp [h0]
  | wasDirty => simpa using h0
  | wasClean => simpa using h0
  | needBgFetch =>
    cases v with
    | some w => simp
    | none => rcases addTemp_code cfg res.2 with h | h <;> simp [h]
  | isPendingSyncWrite => simp

theorem deleteMapStatus_ne_dimp (ret0 : Engine) (res : MutationStatus × KState)
    (h0 : ret0 ≠ Engine.durabilityImpossible) :
    (deleteMapStatus ret0 res).1 ≠ Engine.durabilityImpossible := by
  unfold deleteMapStatus
  cases res.1 <;> simp_all

theorem addMapStatus_ne_dimp (cfg : VBCfg) (ret0 : Engine)
    (res : AddStatus × KState) (h0 : ret0 ≠ Engine.durabilityImpossible) :
    (addMapStatus cfg ret0 res).1 ≠ Engine.durabilityImpossible := by
  unfold addMapStatus
  cases res.1 with
  | addTmpAndBgFetch => rcases addTemp_code cfg res.2 with h | h <;> simp [h]
  | _ => simp_all

theorem replaceMapStatus_ne_dimp (ret0 : Engine) (res : MutationStatus × KState)
    (h0 : ret0 ≠ Engine.durabilityImpossible) :
    (replaceMapStatus ret0 res).1 ≠ Engine.durabilityImpossible := by
  unfold replaceMapStatus
  cases res.1 <;> simp_all

theorem set_dimp (cfg : VBCfg) (st : KState) (itm : Item)
    (predicate : Option StoreIfStatus) (cookie : Option Nat)
    (hpend : itm.pending = true) :
    ((VBucket.set cfg st itm predicate cookie).1 = Engine.durabilityImpossible
      ↔ durabilityPossible cfg.topology = false) ∧
    (durabilityPossible cfg.topology = false →
      VBucket.set cfg st itm predicate cookie = (Engine.durabilityImpossible, st)) := by
  cases hdp : durabilityPossible cfg.topology with
  | false =>
    have : VBucket.set cfg st itm predicate cookie = (Engine.durabilityImpossible, st) := by
      unfold VBucket.set
      rw [if_pos (by simp [hpend, hdp])]
    simp [this]
  | true =>
    have hne : (VBucket.set cfg st itm predicate cookie).1 ≠
        Engine.durabilityImpossible := by
      unfold VBucket.set
      rw [if_neg (by simp [hpend, hdp])]
      cases predicate with
      | none =>
        exact setMapStatus_ne_dimp _ _ _ _ _ (by rw [hpend]; simp)
      | some s =>
        by_cases hf : (callPredicate cfg s == StoreIfStatus.fail) = true
        · simp only [Option.isSome_some, Bool.true_and, hf, if_pos]
          simp
        · simp only [Option.isSome_some, Bool.true_and, hf, if_neg]
          exact setMapStatus_ne_dimp _ _ _ _ _ (by rw [hpend]; simp)
    constructor
    · constructor
      · intro h; exact absurd h hne
      · intro h; exact absurd h (by simp)
    · intro h; exact absurd h (by simp)

theorem add_dimp (cfg : VBCfg) (st : KState) (itm : Item) (cookie : Option Nat)
    (hpend : itm.pending = true) :
    ((VBucket.add cfg st itm cookie).1 = Engine.durabilityImpossible
      ↔ durabilityPossible cfg.topology = false) ∧
    (durabilityPossible cfg.topology = false →
      VBucket.add cfg st itm cookie = (Engine.durabilityImpossible, st)) := by
  cases hdp : durabilityPossible cfg.topology with
  | false =>
    have h : VBucket.add cfg st itm cookie = (Engine.durabilityImpossible, st) := by
      unfold VBucket.add; rw [if_pos (by simp [hpend, hdp])]
    simp [h]
  | true =>
    have hne : (VBucket.add cfg st itm cookie).1 ≠ Engine.durabilityImpossible := by
      unfold VBucket.add
      rw [if_neg (by simp [hpend, hdp])]
      exact addMapStatus_ne_dimp _ _ _ (by rw [hpend]; simp)
    exact ⟨⟨fun h => absurd h hne, fun h => absurd h (by simp)⟩,
      fun h => absurd h (by simp)⟩

theorem replace_dimp (cfg : VBCfg) (st : KState) (itm : Item)
    (predicate : Option StoreIfStatus) (cookie : Option Nat)
    (hpend : itm.pending = true) :
    ((VBucket.replace cfg st itm predicate cookie).1 = Engine.durabilityImpossible
      ↔ durabilityPossible cfg.topology = false) ∧
    (durabilityPossible cfg.topology = false →
      VBucket.replace cfg st itm predicate cookie = (Engine.durabilityImpossible, st)) := by
  cases hdp : durabilityPossible cfg.topology with
  | false =>
    have h : VBucket.replace cfg st itm predicate cookie
        = (Engine.durabilityImpossible, st) := by
      unfold VBucket.replace; rw [if_pos (by simp [hpend, hdp])]
    simp [h]
  | true =>
    have hne : (VBucket.replace cfg st itm predicate cookie).1
        ≠ Engine.durabilityImpossible := by
      have hret : (if itm.pending = true then Engine.ewouldblock
          else Engine.success) ≠ Engine.durabilityImpossible := by
        rw [hpend]; simp
      unfold VBucket.replace
      rw [if_neg (by simp [hpend, hdp])]
      cases predicate with
      | none =>
        cases hsv : st.sv with
        | some v =>
          simp only [hsv]
          by_cases hlne : isLogicallyNonExistent cfg v = true
          · simp [hlne]
          · rw [if_neg hlne]
            exact replaceMapStatus_ne_dimp _ _ hret
        | none =>
          simp only [hsv]
          by_cases he : (cfg.eviction == EvictionPolicy.value) = true
          · simp [he]
          · rw [if_neg he]
            by_cases hb : cfg.bloomMaybe = true
            · rw [if_pos hb]
              rcases addTemp_code cfg st with h | h <;> simp [h]
            · simp [hb]
      | some s =>
        by_cases hf : (callPredicate cfg s == StoreIfStatus.fail) = true
        · simp only [Option.isSome_some, Bool.true_and, hf, if_pos]
          simp
        · simp only [Option.isSome_some, Bool.true_and, hf, if_neg]
          cases hsv : st.sv with
          | some v =>
            simp only [hsv]
            by_cases hlne : isLogicallyNonExistent cfg v = true
            · simp [hlne]
            · rw [if_neg hlne]
              exact replaceMapStatus_ne_dimp _ _ hret
          | none =>
            simp only [hsv]
            by_cases he : (cfg.eviction == EvictionPolicy.value) = true
            · simp [he]
            · rw [if_neg he]
              by_cases hb : cfg.bloomMaybe = true
              · rw [if_pos hb]
                rcases addTemp_code cfg st with h | h <;> simp [h]
              · simp [hb]
    exact ⟨⟨fun h => absurd h hne, fun h => absurd h (by simp)⟩,
      fun h => absurd h (by simp)⟩

theorem delete_dimp (cfg : VBCfg) (st : KState) (cas : Nat)
    (durability : Option DurReq) (cookie : Option Nat)
    (hdv : durValid durability = true) :
    ((VBucket.deleteItem cfg st cas durability cookie).1
        = Engine.durabilityImpossible
      ↔ durabilityPossible cfg.topology = false) ∧
    (durabilityPossible cfg.topology = false →
      VBucket.deleteItem cfg st cas durability cookie
        = (Engine.durabilityImpossible, st)) := by
  cases hdp : durabilityPossible cfg.topology with
  | false =>
    have h : VBucket.deleteItem cfg st cas durability cookie
        = (Engine.durabilityImpossible, st) := by
      unfold VBucket.deleteItem; rw [if_pos (by simp [hdv, hdp])]
    simp [h]
  | true =>
    have hne : (VBucket.deleteItem cfg st cas durability cookie).1
        ≠ Engine.durabilityImpossible := by
      have hret : (if durability.isSome = true then Engine.ewouldblock
          else Engine.success) ≠ Engine.durabilityImpossible := by
        cases durability <;> simp
      unfold VBucket.deleteItem
      rw [if_neg (by simp [hdv, hdp])]
      cases hsv : st.sv with
      | none =>
        simp only [hsv]
        by_cases he : (cfg.eviction == EvictionPolicy.value) = true
        · simp [he]
        · rw [if_neg he]
          by_cases hb : cfg.bloomMaybe = true
          · rw [if_pos hb]
            rcases addTemp_code cfg st with h | h <;> simp [h]
          · simp [hb]
      | some v =>
        simp only [hsv]
        by_cases hearly : (v.deleted || v.isTempItem || cfg.keyLogicallyDeleted) = true
        · rw [if_pos hearly]
          by_cases he : (cfg.eviction == EvictionPolicy.value) = true
          · simp [he]
          · rw [if_neg he]
            by_cases hti : v.isTempInitialItem = true
            · simp [hti]
            · rw [if_neg hti]
              by_cases htnd : (v.isTempNonExistentItem || v.isTempDeletedItem) = true
              · simp [htnd]
              · simp [htnd]
        · rw [if_neg hearly]
          exact deleteMapStatus_ne_dimp _ _ hret
    exact ⟨⟨fun h => absurd h hne, fun h => absurd h (by simp)⟩,
      fun h => absurd h (by simp)⟩

theorem updateStoredValue_ne_isLocked (v : StoredValue) (itm : Item)
    (ck : Option Nat) (st : KState) :
    (updateStoredValue v itm ck st).1 ≠ MutationStatus.isLocked := by
  unfold updateStoredValue
  split
  · simp
  · split <;> simp

theorem processSetFinal_ne_isLocked (v : StoredValue) (itm : Item) (cas : Nat)
    (hm : Bool) (ck : Option Nat) (st : KState) :
    (processSetFinal v itm cas hm ck st).1 ≠ MutationStatus.isLocked := by
  unfold processSetFinal
  split
  · simp
  · exact updateStoredValue_ne_isLocked v itm ck st

theorem processSetExisting_ne_isLocked (v : StoredValue) (itm : Item)
    (cas : Nat) (ae hm : Bool) (ck : Option Nat) (st : KState)
    (h : v.locked = false) :
    (processSetExisting v itm cas ae hm ck st).1 ≠ MutationStatus.isLocked := by
  unfold processSetExisting
  split
  · simp
  · rw [if_neg (by simp [h])]
    split
    · split
      · simp
      · split
        · simp
        · simp
    · exact processSetFinal_ne_isLocked v itm cas hm ck st

theorem processSet_ne_isLocked (cfg : VBCfg) (st : KState) (itm : Item)
    (cas : Nat) (ae hm : Bool) (ck : Option Nat) (sif : StoreIfStatus)
    (mke : Bool) (h : ∀ w, st.sv = some w → w.locked = false) :
    (processSet cfg st itm cas ae hm ck sif mke).1 ≠ MutationStatus.isLocked := by
  unfold processSet
  split
  · simp
  · split
    · simp
    · split
      · simp
      · cases hsv : st.sv with
        | none =>
          simp only [hsv]
          split <;> simp
        | some v0 =>
          have hl0 : v0.locked = false := h v0 hsv
          simp only [hsv]
          split
          · split
            · simp
            · exact processSetExisting_ne_isLocked _ itm cas ae hm ck _
                (by simp [hl0])
          · exact processSetExisting_ne_isLocked _ itm cas ae hm ck _ hl0

theorem setMapStatus_lock_codes (cfg : VBCfg) (casOp : Bool) (ret0 : Engine)
    (v : Option StoredValue) (res : MutationStatus × KState)
    (hres : res.1 ≠ MutationStatus.isLocked)
    (h0 : ret0 = Engine.ewouldblock ∨ ret0 = Engine.success) :
    (setMapStatus cfg casOp ret0 v res).1 ≠ Engine.locked ∧
    (setMapStatus cfg casOp ret0 v res).1 ≠ Engine.lockedTmpfail := by
  unfold setMapStatus
  cases hr : res.1 with
  | isLocked => exact absurd hr hres
  | noMem => simp
  | invalidCas => simp
  | notFound => cases casOp <;> rcases h0 with h | h <;> simp [h]
  | wasDirty => rcases h0 with h | h <;> simp [h]
  | wasClean => rcases h0 with h | h <;> simp [h]
  | needBgFetch =>
    cases v with
    | some w => simp
    | none => rcases addTemp_code cfg res.2 with h | h <;> simp [h]
  | isPendingSyncWrite => simp

theorem set_never_locked_on_replica (cfg : VBCfg) (st : KState) (itm : Item)
    (predicate : Option StoreIfStatus) (cookie : Option Nat)
    (hstate : cfg.state = VBState.replica ∨ cfg.state = VBState.pending) :
    (VBucket.set cfg st itm predicate cookie).1 ≠ Engine.locked ∧
    (VBucket.set cfg st itm predicate cookie).1 ≠ Engine.lockedTmpfail := by
  have hst : (cfg.state == VBState.replica || cfg.state == VBState.pending) = true := by
    rcases hstate with h | h <;> simp [h]
  unfold VBucket.set
  split
  · simp
  · have hret : (if itm.pending = true then Engine.ewouldblock else Engine.success)
        = Engine.ewouldblock ∨
        (if itm.pending = true then Engine.ewouldblock else Engine.success)
        = Engine.success := by
      cases itm.pending <;> simp
    have hv : ∀ w, (match st.sv with
        | some w =>
          if (w.locked && (cfg.state == VBState.replica
              || cfg.state == VBState.pending)) = true then some w.unlock
          else some w
        | none => (none : Option StoredValue)) = some w → w.locked = false := by
      intro w hw
      cases hsv : st.sv with
      | none => rw [hsv] at hw; exact absurd hw (by simp)
      | some u =>
        rw [hsv] at hw
        have hw2 : (if (u.locked && (cfg.state == VBState.replica
            || cfg.state == VBState.pending)) = true then some u.unlock
            else some u) = some w := hw
        by_cases hl : u.locked = true
        · rw [if_pos (by simp [hl, hst])] at hw2
          cases hw2; rfl
        · rw [if_neg (by simp [hl])] at hw2
          cases hw2; simpa using hl
    cases predicate with
    | none =>
      exact setMapStatus_lock_codes _ _ _ _ _
        (processSet_ne_isLocked _ _ _ _ _ _ _ _ _ hv) hret
    | some s =>
      by_cases hf : (callPredicate cfg s == StoreIfStatus.fail) = true
      · simp only [Option.isSome_some, Bool.true_and, hf, if_pos]
        simp
      · simp only [Option.isSome_some, Bool.true_and, hf, if_neg]
        exact setMapStatus_lock_codes _ _ _ _ _
          (processSet_ne_isLocked _ _ _ _ _ _ _ _ _ hv) hret

theorem processExpiredItem_ne_isLocked (cfg : VBCfg) (st : KState)
    (v : StoredValue) :
    (processExpiredItem cfg st v).1 ≠ MutationStatus.isLocked := by
  unfold processExpiredItem
  split
  · simp
  · split <;> simp

theorem processSoftDelete_ne_isLocked (cfg : VBCfg) (st : KState)
    (v0 : StoredValue) (cas : Nat) (durability : Option DurReq)
    (ck : Option Nat) (h : v0.locked = false) :
    (processSoftDelete cfg st v0 cas durability ck).1
      ≠ MutationStatus.isLocked := by
  unfold processSoftDelete
  split
  · simp
  · rw [if_neg (by simp [h])]
    dsimp only
    split
    · simp
    · split
      · simp
      · split <;> simp

theorem deleteMapStatus_lock_codes (ret0 : Engine)
    (res : MutationStatus × KState)
    (hres : res.1 ≠ MutationStatus.isLocked)
    (h0 : ret0 = Engine.ewouldblock ∨ ret0 = Engine.success) :
    (deleteMapStatus ret0 res).1 ≠ Engine.locked ∧
    (deleteMapStatus ret0 res).1 ≠ Engine.lockedTmpfail := by
  unfold deleteMapStatus
  cases hr : res.1 with
  | isLocked => exact absurd hr hres
  | noMem => simp
  | invalidCas => simp
  | notFound => simp
  | wasDirty => rcases h0 with h | h <;> simp [h]
  | wasClean => rcases h0 with h | h <;> simp [h]
  | needBgFetch => simp
  | isPendingSyncWrite => simp

theorem delete_never_locked_on_replica (cfg : VBCfg) (st : KState) (cas : Nat)
    (durability : Option DurReq) (cookie : Option Nat)
    (hstate : cfg.state = VBState.replica ∨ cfg.state = VBState.pending) :
    (VBucket.deleteItem cfg st cas durability cookie).1 ≠ Engine.locked ∧
    (VBucket.deleteItem cfg st cas durability cookie).1 ≠ Engine.lockedTmpfail := by
  have hst : (cfg.state == VBState.replica || cfg.state == VBState.pending) = true := by
    rcases hstate with h | h <;> simp [h]
  have hret : (if durability.isSome = true then Engine.ewouldblock
      else Engine.success) = Engine.ewouldblock ∨
      (if durability.isSome = true then Engine.ewouldblock
      else Engine.success) = Engine.success := by
    cases durability <;> simp
  unfold VBucket.deleteItem
  split
  · simp
  · cases hsv : st.sv with
    | none =>
      simp only [hsv]
      by_cases he : (cfg.eviction == EvictionPolicy.value) = true
      · simp [he]
      · rw [if_neg he]
        by_cases hb : cfg.bloomMaybe = true
        · rw [if_pos hb]
          rcases addTemp_code cfg st with h | h <;> simp [h]
        · simp [hb]
    | some v =>
      simp only [hsv]
      by_cases hearly : (v.deleted || v.isTempItem || cfg.keyLogicallyDeleted) = true
      · rw [if_pos hearly]
        by_cases he : (cfg.eviction == EvictionPolicy.value) = true
        · simp [he]
        · rw [if_neg he]
          by_cases hti : v.isTempInitialItem = true
          · simp [hti]
          · rw [if_neg hti]
            by_cases htnd : (v.isTempNonExistentItem || v.isTempDeletedItem) = true
            · simp [htnd]
            · simp [htnd]
      · rw [if_neg hearly]
        have hv1 : (if (v.locked && (cfg.state == VBState.replica
            || cfg.state == VBState.pending)) = true then v.unlock
            else v).locked = false := by
          by_cases hl : v.locked = true
          · rw [if_pos (by simp [hl, hst])]; rfl
          · rw [if_neg (by simp [hl])]; simpa using hl
        apply deleteMapStatus_lock_codes _ _ _ hret
        by_cases hl : (v.locked && (cfg.state == VBState.replica
            || cfg.state == VBState.pending)) = true
        · rw [if_pos hl]
          split
          · exact processExpiredItem_ne_isLocked _ _ _
          · exact processSoftDelete_ne_isLocked _ _ _ _ _ _ rfl
        · rw [if_neg hl]
          have hvl : v.locked = false := by
            rcases Bool.eq_false_or_eq_true v.locked with h | h
            · exfalso; exact hl (by simp [h, hst])
            · exact h
          split
          · exact processExpiredItem_ne_isLocked _ _ _
          · exact processSoftDelete_ne_isLocked _ _ _ _ _ _ hvl

theorem set_unlocks_first (cfg : VBCfg) (st : KState) (itm : Item)
    (predicate : Option StoreIfStatus) (cookie : Option Nat) (w : StoredValue)
    (hstate : cfg.state = VBState.replica ∨ cfg.state = VBState.pending)
    (hw : w.locked = true) (hnp : itm.pending = false)
    (hpf : predicate ≠ some StoreIfStatus.fail) :
    VBucket.set cfg { st with sv := some w } itm predicate cookie =
    VBucket.set cfg { st with sv := some w.unlock } itm predicate cookie := by
  have hst : (cfg.state == VBState.replica || cfg.state == VBState.pending) = true := by
    rcases hstate with h | h <;> simp [h]
  cases predicate with
  | none =>
    simp only [VBucket.set, StoredValue.unlock, hnp, hw, hst, Bool.false_and,
      Bool.true_and, Bool.and_true, Bool.and_self, if_true, if_false]
    simp
  | some s =>
    have hs : (callPredicate cfg s == StoreIfStatus.fail) = false := by
      cases s with
      | fail => exact absurd rfl hpf
      | continue_ => simp [callPredicate]
      | getItemInfo =>
        unfold callPredicate
        split <;> simp
    simp only [VBucket.set, StoredValue.unlock, hnp, hw, hst, hs, Bool.false_and,
      Bool.true_and, Bool.and_true, Bool.and_self, if_true, if_false,
      Option.isSome_some]
    simp

theorem delete_unlocks_first (cfg : VBCfg) (st : KState) (cas : Nat)
    (cookie : Option Nat) (w : StoredValue)
    (hstate : cfg.state = VBState.replica ∨ cfg.state = VBState.pending)
    (hw : w.locked = true)
    (hlive : (w.deleted || w.isTempItem || cfg.keyLogicallyDeleted) = false) :
    VBucket.deleteItem cfg { st with sv := some w } cas none cookie =
    VBucket.deleteItem cfg { st with sv := some w.unlock } cas none cookie := by
  have hst : (cfg.state == VBState.replica || cfg.state == VBState.pending) = true := by
    rcases hstate with h | h <;> simp [h]
  have hlive2 : (w.deleted || w.isTempItem || cfg.keyLogicallyDeleted) = true ↔ False := by
    simp [hlive]
  simp only [VBucket.deleteItem, StoredValue.unlock, StoredValue.isTempItem,
    durValid, hw, hst, Bool.false_and, Bool.true_and, Bool.and_true,
    Bool.and_self, if_true, if_false] at hlive2 ⊢
  simp only [StoredValue.isTempItem] at hlive
  simp [hlive]

theorem durabilityPossible_iff (t : List Chain) :
    durabilityPossible t = true ↔
      t ≠ [] ∧ ∀ c ∈ t, c.length / 2 + 1 ≤ (c.filter Option.isSome).length := by
  simp [durabilityPossible, List.all_eq_true, chainMajority, definedNodes,
    List.isEmpty_iff]

/-- C1: a durable prepare on the front-end write paths (set, add, replace,
delete with a valid durability requirement) returns durabilityImpossible
exactly when the durability-possible predicate fails, that is when no
replication chain is configured or some chain has fewer defined (non-null)
nodes than majority = chainSize / 2 + 1; the failing operation leaves the
state unchanged. -/
theorem durability_impossible_gate (cfg : VBCfg) (st : KState) (itm : Item)
    (predicate : Option StoreIfStatus) (cookie : Option Nat) (cas : Nat)
    (durability : Option DurReq)
    (hpend : itm.pending = true) (hdv : durValid durability = true) :
    (durabilityPossible cfg.topology = true ↔
      cfg.topology ≠ [] ∧ ∀ c ∈ cfg.topology,
        c.length / 2 + 1 ≤ (c.filter Option.isSome).length) ∧
    ((VBucket.set cfg st itm predicate cookie).1 = Engine.durabilityImpossible
      ↔ durabilityPossible cfg.topology = false) ∧
    ((VBucket.add cfg st itm cookie).1 = Engine.durabilityImpossible
      ↔ durabilityPossible cfg.topology = false) ∧
    ((VBucket.replace cfg st itm predicate cookie).1 = Engine.durabilityImpossible
      ↔ durabilityPossible cfg.topology = false) ∧
    ((VBucket.deleteItem cfg st cas durability cookie).1
        = Engine.durabilityImpossible
      ↔ durabilityPossible cfg.topology = false) ∧
    (durabilityPossible cfg.topology = false →
      VBucket.set cfg st itm predicate cookie = (Engine.durabilityImpossible, st) ∧
      VBucket.add cfg st itm cookie = (Engine.durabilityImpossible, st) ∧
      VBucket.replace cfg st itm predicate cookie
        = (Engine.durabilityImpossible, st) ∧
      VBucket.deleteItem cfg st cas durability cookie
        = (Engine.durabilityImpossible, st)) :=
  ⟨durabilityPossible_iff cfg.topology,
   (set_dimp cfg st itm predicate cookie hpend).1,
   (add_dimp cfg st itm cookie hpend).1,
   (replace_dimp cfg st itm predicate cookie hpend).1,
   (delete_dimp cfg st cas durability cookie hdv).1,
   fun h => ⟨(set_dimp cfg st itm predicate cookie hpend).2 h,
     (add_dimp cfg st itm cookie hpend).2 h,
     (replace_dimp cfg st itm predicate cookie hpend).2 h,
     (delete_dimp cfg st cas durability cookie hdv).2 h⟩⟩

theorem durability_impossible_gate_witness :
    VBucket.set
      ⟨VBState.active, EvictionPolicy.value, ⟨0, 100, 1/2, 1/2⟩, true, true,
        true, false, [[some "a", none]]⟩
      ⟨none, [], []⟩ ⟨0, false, true, false, 1, ⟨true, some 5⟩⟩ none none
      = (Engine.durabilityImpossible, ⟨none, [], []⟩) := by
  have h := durability_impossible_gate
    ⟨VBState.active, EvictionPolicy.value, ⟨0, 100, 1/2, 1/2⟩, true, true, true,
      false, [[some "a", none]]⟩
    ⟨none, [], []⟩ ⟨0, false, true, false, 1, ⟨true, some 5⟩⟩ none none 0
    (some ⟨true, some 5⟩) rfl rfl
  exact (h.2.2.2.2.2 (by decide)).1

/-- C10: on a replica or pending vBucket, set and deleteItem never return
locked or lockedTmpfail, and the locked flag of an existing stored value
is cleared before the operation is applied, so lock checks are enforced
only on an active vBucket. -/
theorem replica_pending_lock_bypass (cfg : VBCfg) (st : KState) (itm : Item)
    (predicate : Option StoreIfStatus) (cookie : Option Nat) (cas : Nat)
    (durability : Option DurReq) (w : StoredValue)
    (hstate : cfg.state = VBState.replica ∨ cfg.state = VBState.pending) :
    ((VBucket.set cfg st itm predicate cookie).1 ≠ Engine.locked ∧
     (VBucket.set cfg st itm predicate cookie).1 ≠ Engine.lockedTmpfail) ∧
    ((VBucket.deleteItem cfg st cas durability cookie).1 ≠ Engine.locked ∧
     (VBucket.deleteItem cfg st cas durability cookie).1 ≠ Engine.lockedTmpfail) ∧
    (w.locked = true → itm.pending = false →
      predicate ≠ some StoreIfStatus.fail →
      VBucket.set cfg { st with sv := some w } itm predicate cookie =
      VBucket.set cfg { st with sv := some w.unlock } itm predicate cookie) ∧
    (w.locked = true →
      (w.deleted || w.isTempItem || cfg.keyLogicallyDeleted) = false →
      VBucket.deleteItem cfg { st with sv := some w } cas none cookie =
      VBucket.deleteItem cfg { st with sv := some w.unlock } cas none cookie) :=
  ⟨set_never_locked_on_replica cfg st itm predicate cookie hstate,
   delete_never_locked_on_replica cfg st cas durability cookie hstate,
   fun hw hnp hpf => set_unlocks_first cfg st itm predicate cookie w hstate hw hnp hpf,
   fun hw hlive => delete_unlocks_first cfg st cas cookie w hstate hw hlive⟩

theorem replica_pending_lock_bypass_witness :
    (VBucket.set
      ⟨VBState.replica, EvictionPolicy.value, ⟨0, 100, 1/2, 1/2⟩, true, true,
        true, false, []⟩
      ⟨some ⟨5, false, TempKind.notTemp, false, true, false, true,
        CommittedState.committedViaMutation⟩, [], []⟩
      ⟨9, false, false, false, 0, ⟨false, none⟩⟩ none none).1
      ≠ Engine.locked := by
  have h := replica_pending_lock_bypass
    ⟨VBState.replica, EvictionPolicy.value, ⟨0, 100, 1/2, 1/2⟩, true, true,
      true, false, []⟩
    ⟨some ⟨5, false, TempKind.notTemp, false, true, false, true,
      CommittedState.committedViaMutation⟩, [], []⟩
    ⟨9, false, false, false, 0, ⟨false, none⟩⟩ none none 0 none
    ⟨5, false, TempKind.notTemp, false, true, false, true,
      CommittedState.committedViaMutation⟩ (Or.inl rfl)
  exact h.1.1

/-- C6: memory admission passes exactly when the projected memory usage
stays within mutationMemThreshold times maxSize for an active vBucket (or
whenever the active threshold is forced) and within
replicationThrottleThreshold times maxSize otherwise; when admission fails
a non-durable set returns enomem, queues nothing and tracks nothing, and
on an active vBucket leaves the state entirely unchanged. -/
theorem memory_admission (cfg : VBCfg) (st : KState) (itm : Item)
    (cookie : Option Nat) :
    (hasMemoryForStoredValue cfg.state false cfg.mem = true ↔
      (if cfg.state = VBState.active then
        cfg.mem.newSize ≤ cfg.mem.maxSize * cfg.mem.mutationMemThreshold
      else
        cfg.mem.newSize ≤ cfg.mem.maxSize * cfg.mem.replicationThrottleThreshold)) ∧
    (∀ s m, hasMemoryForStoredValue s true m = true ↔
      m.newSize ≤ m.maxSize * m.mutationMemThreshold) ∧
    (itm.pending = false →
      hasMemoryForStoredValue cfg.state false cfg.mem = false →
      (VBucket.set cfg st itm none cookie).1 = Engine.enomem ∧
      (VBucket.set cfg st itm none cookie).2.queued = st.queued ∧
      (VBucket.set cfg st itm none cookie).2.tracked = st.tracked ∧
      (cfg.state = VBState.active →
        (VBucket.set cfg st itm none cookie).2 = st)) := by
  refine ⟨?_, ?_, ?_⟩
  · unfold hasMemoryForStoredValue
    by_cases h : cfg.state = VBState.active
    · simp [h]
    · rw [if_neg (by simp [h]), if_neg h]
      simp
  · intro s m; simp [hasMemoryForStoredValue]
  · intro hnp hmem
    have hps : ∀ (s : KState) mke,
        processSet cfg s itm itm.cas true false cookie StoreIfStatus.continue_ mke
          = (MutationStatus.noMem, s) := by
      intro s mke
      unfold processSet
      rw [if_pos (by simp [hmem])]
    obtain ⟨sv0, q0, t0⟩ := st
    unfold VBucket.set
    rw [if_neg (by simp [hnp])]
    dsimp only
    rw [hps]
    cases sv0 with
    | none => simp [setMapStatus]
    | some w =>
      dsimp only
      by_cases hl : (w.locked && (cfg.state == VBState.replica
          || cfg.state == VBState.pending)) = true
      · rw [if_pos hl]
        refine ⟨by simp [setMapStatus], by simp [setMapStatus],
          by simp [setMapStatus], ?_⟩
        intro hact
        rw [hact] at hl
        simp at hl
      · rw [if_neg hl]
        simp [setMapStatus]

theorem set_eval_existing (cfg : VBCfg) (q : List QItem) (t : List Prepare)
    (itm : Item) (cookie : Option Nat) (w : StoredValue)
    (hl : w.locked = false)
    (hguard : (itm.pending && !durabilityPossible cfg.topology) = false) :
    VBucket.set cfg ⟨some w, q, t⟩ itm none cookie =
      setMapStatus cfg (itm.cas != 0)
        (if itm.pending = true then Engine.ewouldblock else Engine.success)
        (some w)
        (processSet cfg ⟨some w, q, t⟩ itm itm.cas true false cookie
          StoreIfStatus.continue_
          (!(w.isTempInitialItem && (cfg.eviction == EvictionPolicy.full)
             && (itm.cas != 0) && !cfg.bloomMaybe))) := by
  unfold VBucket.set
  rw [if_neg (by simp [hguard])]
  dsimp only
  simp [hl, show (StoreIfStatus.continue_ == StoreIfStatus.getItemInfo) = false
    from rfl]

theorem processSet_existing_cases (cfg : VBCfg) (q : List QItem)
    (t : List Prepare) (itm : Item) (cookie : Option Nat) (w : StoredValue)
    (mke : Bool) (hl : w.locked = false) (hti : w.isTempInitialItem = false)
    (hmem : hasMemoryForStoredValue cfg.state false cfg.mem = true) :
    processSet cfg ⟨some w, q, t⟩ itm itm.cas true false cookie
        StoreIfStatus.continue_ mke =
      (if (w.expired && !itm.deleted) = true then
        (if (itm.cas != 0) = true then
          (MutationStatus.notFound, ⟨some w, q, t⟩)
         else processSetExisting w itm itm.cas true false cookie ⟨some w, q, t⟩)
       else processSetExisting w itm itm.cas true false cookie ⟨some w, q, t⟩) := by
  unfold processSet
  rw [if_neg (by simp [hmem]), if_neg (by simp), if_neg (by simp [hti])]
  dsimp only
  by_cases he : (w.expired && !false && !itm.deleted) = true
  · have he2 : (w.expired && !itm.deleted) = true := by simpa using he
    rw [if_pos he, if_pos he2]
    simp only [hl, Bool.false_eq_true, if_false]
  · have he2 : ¬(w.expired && !itm.deleted) = true := by simpa using he
    rw [if_neg he, if_neg he2]

theorem processSetExisting_mismatch (itm : Item) (w : StoredValue)
    (cookie : Option Nat) (st : KState) (hl : w.locked = false)
    (hc : (itm.cas != 0) = true) (hm : (itm.cas != w.cas) = true) :
    processSetExisting w itm itm.cas true false cookie st =
      (if w.isTempNonExistentItem = true then (MutationStatus.notFound, st)
       else if ((w.isTempDeletedItem || w.deleted) && !itm.deleted) = true then
         (MutationStatus.notFound, st)
       else (MutationStatus.invalidCas, st)) := by
  unfold processSetExisting
  dsimp only [Bool.not_true, Bool.false_and, Bool.false_eq_true, if_false]
  rw [if_neg (show ¬(w.locked = true) from by simp [hl]),
    if_pos (show (itm.cas != 0 && itm.cas != w.cas) = true from by simp [hc, hm])]
  simp

theorem processSetExisting_match (itm : Item) (w : StoredValue)
    (cookie : Option Nat) (st : KState) (hl : w.locked = false)
    (hmatch : (itm.cas != 0 && itm.cas != w.cas) = false) :
    processSetExisting w itm itm.cas true false cookie st =
      processSetFinal w itm itm.cas false cookie st := by
  unfold processSetExisting
  dsimp only [Bool.not_true, Bool.false_and, Bool.false_eq_true, if_false]
  rw [if_neg (show ¬(w.locked = true) from by simp [hl]),
    if_neg (show ¬((itm.cas != 0 && itm.cas != w.cas) = true) from by simp [hmatch])]
  simp

theorem memOkEval (s : VBState) (b : Bool) :
    hasMemoryForStoredValue s b ⟨0, 100, 1, 1⟩ = true := by
  unfold hasMemoryForStoredValue
  split <;> norm_num

/-- C4 (amended): outcomes of set under a non-zero, mismatching CAS on an
existing unlocked stored value: a temp-non-existent value yields keyEnoent;
a deleted or temp-deleted value with a non-delete incoming item yields
keyEnoent; an expired value with a non-delete incoming item also yields
keyEnoent (the spec expected keyEexists there); every remaining mismatch
case — the value is not temp-non-existent, any expiry is paired with a
delete item, and any deleted body is paired with a delete item — yields
keyEexists; the stored value is unchanged in each case. -/
theorem cas_mismatch_outcomes (cfg : VBCfg) (q : List QItem) (t : List Prepare)
    (itm : Item) (cookie : Option Nat) (w : StoredValue)
    (hguard : (itm.pending && !durabilityPossible cfg.topology) = false)
    (hl : w.locked = false) (hti : w.isTempInitialItem = false)
    (hmem : hasMemoryForStoredValue cfg.state false cfg.mem = true)
    (hc : itm.cas ≠ 0) (hm : itm.cas ≠ w.cas) :
    (w.isTempNonExistentItem = true →
      VBucket.set cfg ⟨some w, q, t⟩ itm none cookie
        = (Engine.keyEnoent, ⟨some w, q, t⟩)) ∧
    ((w.isTempDeletedItem || w.deleted) = true → itm.deleted = false →
      VBucket.set cfg ⟨some w, q, t⟩ itm none cookie
        = (Engine.keyEnoent, ⟨some w, q, t⟩)) ∧
    (w.expired = true → itm.deleted = false →
      VBucket.set cfg ⟨some w, q, t⟩ itm none cookie
        = (Engine.keyEnoent, ⟨some w, q, t⟩)) ∧
    ((w.expired = true → itm.deleted = true) → w.isTempNonExistentItem = false →
      ((w.isTempDeletedItem || w.deleted) = true → itm.deleted = true) →
      VBucket.set cfg ⟨some w, q, t⟩ itm none cookie
        = (Engine.keyEexists, ⟨some w, q, t⟩)) := by
  have hcb : (itm.cas != 0) = true := by simp [hc]
  have hmb : (itm.cas != w.cas) = true := by simp [hm]
  rw [show VBucket.set cfg ⟨some w, q, t⟩ itm none cookie = _ from
    set_eval_existing cfg q t itm cookie w hl hguard]
  rw [processSet_existing_cases cfg q t itm cookie w _ hl hti hmem]
  refine ⟨?_, ?_, ?_, ?_⟩
  · intro htn
    by_cases he : (w.expired && !itm.deleted) = true
    · rw [if_pos he, if_pos hcb]
      simp [setMapStatus, hcb]
    · rw [if_neg he, processSetExisting_mismatch itm w cookie _ hl hcb hmb]
      simp [setMapStatus, hcb, htn]
  · intro htd hid
    by_cases he : (w.expired && !itm.deleted) = true
    · rw [if_pos he, if_pos hcb]
      simp [setMapStatus, hcb]
    · rw [if_neg he, processSetExisting_mismatch itm w cookie _ hl hcb hmb]
      by_cases htn : w.isTempNonExistentItem = true
      · simp [setMapStatus, hcb, htn]
      · rcases Bool.or_eq_true_iff.mp htd with h1 | h1 <;>
          simp [setMapStatus, hcb, htn, h1, hid]
  · intro hexp hid
    have he : (w.expired && !itm.deleted) = true := by simp [hexp, hid]
    rw [if_pos he, if_pos hcb]
    simp [setMapStatus, hcb]
  · intro hexpimp htn hcase
    have he : ¬((w.expired && !itm.deleted) = true) := by
      rcases Bool.eq_false_or_eq_true w.expired with hw | hw
      · simp [hexpimp hw]
      · simp [hw]
    rw [if_neg he, processSetExisting_mismatch itm w cookie _ hl hcb hmb]
    by_cases htd : (w.isTempDeletedItem || w.deleted) = true
    · have hid : itm.deleted = true := hcase htd
      rcases Bool.or_eq_true_iff.mp htd with h1 | h1 <;>
        simp [setMapStatus, htn, h1, hid]
    · have h1 : w.isTempDeletedItem = false := by
        rcases Bool.eq_false_or_eq_true w.isTempDeletedItem with h | h
        · exact absurd (by simp [h]) htd
        · exact h
      have h2 : w.deleted = false := by
        rcases Bool.eq_false_or_eq_true w.deleted with h | h
        · exact absurd (by simp [h]) htd
        · exact h
      simp [setMapStatus, htn, h1, h2]

/-- C4 counterexample: a CAS mismatch on an expired (not deleted, not
temp) stored value returns keyEnoent, not the keyEexists the spec
assigns to every non-temp, non-deleted mismatch. -/
theorem cas_mismatch_expired_counterexample :
    VBucket.set cfgSample ⟨some svExpiredSample, [], []⟩ itmCas7 none none
      = (Engine.keyEnoent, ⟨some svExpiredSample, [], []⟩) := by
  rw [show VBucket.set cfgSample ⟨some svExpiredSample, [], []⟩ itmCas7 none none
      = _ from set_eval_existing cfgSample [] [] itmCas7 none svExpiredSample
        rfl rfl]
  rw [processSet_existing_cases cfgSample [] [] itmCas7 none svExpiredSample _
    rfl rfl (memOkEval VBState.active false)]
  simp [setMapStatus, svExpiredSample, itmCas7]

theorem cas_mismatch_outcomes_witness :
    VBucket.set cfgSample ⟨some svTempNESample, [], []⟩ itmCas7 none none
      = (Engine.keyEnoent, ⟨some svTempNESample, [], []⟩) := by
  have h := cas_mismatch_outcomes cfgSample [] [] itmCas7 none svTempNESample
    rfl rfl rfl (memOkEval VBState.active false) (by decide) (by decide)
  exact h.1 rfl

/-- C5 (amended): writes over an existing stored value whose body is
deleted: a non-zero-CAS non-delete write is refused with keyEnoent whether
the CAS matches (the MB-23530 rule) or not (the not-found mismatch rule);
a delete with CAS zero or with the matching CAS succeeds; and a CAS=0
non-delete write also succeeds — the restriction gates only on explicit
(non-zero) CAS, contrary to the spec sentence that only deleted-to-deleted
transitions are permitted. -/
theorem deleted_body_cas_rules (cfg : VBCfg) (q : List QItem) (t : List Prepare)
    (itm : Item) (cookie : Option Nat) (w : StoredValue)
    (hguard : (itm.pending && !durabilityPossible cfg.topology) = false)
    (hl : w.locked = false) (hti : w.isTempInitialItem = false)
    (hmem : hasMemoryForStoredValue cfg.state false cfg.mem = true)
    (hdel : w.deleted = true) (hnpend : w.committed ≠ CommittedState.pend) :
    (itm.cas ≠ 0 → itm.deleted = false →
      VBucket.set cfg ⟨some w, q, t⟩ itm none cookie
        = (Engine.keyEnoent, ⟨some w, q, t⟩)) ∧
    (itm.cas = 0 ∨ itm.cas = w.cas → itm.deleted = true → itm.pending = false →
      (VBucket.set cfg ⟨some w, q, t⟩ itm none cookie).1 = Engine.success) ∧
    (itm.cas = 0 → itm.deleted = false → itm.pending = false →
      (VBucket.set cfg ⟨some w, q, t⟩ itm none cookie).1 = Engine.success) := by
  rw [show VBucket.set cfg ⟨some w, q, t⟩ itm none cookie = _ from
    set_eval_existing cfg q t itm cookie w hl hguard]
  rw [processSet_existing_cases cfg q t itm cookie w _ hl hti hmem]
  refine ⟨?_, ?_, ?_⟩
  · intro hc hid
    have hcb : (itm.cas != 0) = true := by simp [hc]
    by_cases hcm : itm.cas = w.cas
    · have hmatch : (itm.cas != 0 && itm.cas != w.cas) = false := by simp [hcm]
      by_cases he : (w.expired && !itm.deleted) = true
      · rw [if_pos he, if_pos hcb]
        simp [setMapStatus, hcb]
      · rw [if_neg he, processSetExisting_match itm w cookie _ hl hmatch]
        unfold processSetFinal
        have hfin : (!false && itm.cas != 0
            && (w.deleted || w.isTempDeletedItem) && !itm.deleted) = true := by
          simp [hcb, hdel, hid]
        rw [if_pos hfin]
        simp [setMapStatus, hcb]
    · have hmb : (itm.cas != w.cas) = true := by simp [hcm]
      by_cases he : (w.expired && !itm.deleted) = true
      · rw [if_pos he, if_pos hcb]
        simp [setMapStatus, hcb]
      · rw [if_neg he, processSetExisting_mismatch itm w cookie _ hl hcb hmb]
        by_cases htn : w.isTempNonExistentItem = true
        · simp [setMapStatus, hcb, htn]
        · simp [setMapStatus, hcb, htn, hdel, hid]
  · intro hcd hid hnp
    rcases hcd with hc0 | hceq
    · have hmatch : (itm.cas != 0 && itm.cas != w.cas) = false := by simp [hc0]
      have he : ¬((w.expired && !itm.deleted) = true) := by simp [hid]
      rw [if_neg he, processSetExisting_match itm w cookie _ hl hmatch]
      unfold processSetFinal updateStoredValue
      have hfin : ¬((!false && itm.cas != 0
          && (w.deleted || w.isTempDeletedItem) && !itm.deleted) = true) := by
        simp [hc0]
      rw [if_neg hfin]
      have hcp : ¬((w.committed == CommittedState.pend) = true) := by
        simp [hnpend]
      rw [if_neg hcp]
      cases hd : w.dirty <;> simp [setMapStatus, hnp, hc0]
    · have hmatch : (itm.cas != 0 && itm.cas != w.cas) = false := by simp [hceq]
      have he : ¬((w.expired && !itm.deleted) = true) := by simp [hid]
      rw [if_neg he, processSetExisting_match itm w cookie _ hl hmatch]
      unfold processSetFinal updateStoredValue
      have hfin : ¬((!false && itm.cas != 0
          && (w.deleted || w.isTempDeletedItem) && !itm.deleted) = true) := by
        simp [hid]
      rw [if_neg hfin]
      have hcp : ¬((w.committed == CommittedState.pend) = true) := by
        simp [hnpend]
      rw [if_neg hcp]
      cases hd : w.dirty <;> simp [setMapStatus, hnp]
  · intro hc0 hid hnp
    have hmatch : (itm.cas != 0 && itm.cas != w.cas) = false := by simp [hc0]
    have hfin : ¬((!false && itm.cas != 0
        && (w.deleted || w.isTempDeletedItem) && !itm.deleted) = true) := by
      simp [hc0]
    have hcp : ¬((w.committed == CommittedState.pend) = true) := by
      simp [hnpend]
    by_cases he : (w.expired && !itm.deleted) = true
    · have hnc : ¬((itm.cas != 0) = true) := by simp [hc0]
      rw [if_pos he, if_neg hnc,
        processSetExisting_match itm w cookie _ hl hmatch]
      unfold processSetFinal updateStoredValue
      rw [if_neg hfin, if_neg hcp]
      cases hd : w.dirty <;> simp [setMapStatus, hnp, hc0]
    · rw [if_neg he, processSetExisting_match itm w cookie _ hl hmatch]
      unfold processSetFinal updateStoredValue
      rw [if_neg hfin, if_neg hcp]
      cases hd : w.dirty <;> simp [setMapStatus, hnp, hc0]

/-- C5 counterexample: a CAS=0 non-delete set over a deleted-body stored
value succeeds, refuting the spec sentence that such a write does not
succeed. -/
theorem deleted_body_cas0_counterexample :
    (VBucket.set cfgSample ⟨some svDeletedSample, [], []⟩ itmCas0 none none).1
      = Engine.success := by
  rw [show VBucket.set cfgSample ⟨some svDeletedSample, [], []⟩ itmCas0 none none
      = _ from set_eval_existing cfgSample [] [] itmCas0 none svDeletedSample
        rfl rfl]
  rw [processSet_existing_cases cfgSample [] [] itmCas0 none svDeletedSample _
    rfl rfl (memOkEval VBState.active false)]
  simp [setMapStatus, processSetExisting, processSetFinal, updateStoredValue,
    svDeletedSample, itmCas0]

theorem deleted_body_cas_rules_witness :
    (VBucket.set cfgSample ⟨some svDeletedSample, [], []⟩ itmDelCas5 none
      none).1 = Engine.success := by
  have h := deleted_body_cas_rules cfgSample [] [] itmDelCas5 none
    svDeletedSample rfl rfl rfl (memOkEval VBState.active false) rfl (by decide)
  exact h.2.1 (Or.inr rfl) rfl rfl

theorem hexVal_hexDigit : ∀ d, d < 16 → hexVal (hexDigit d) = some d := by
  decide

theorem fromHexCore_toHexAux :
    ∀ fuel n acc a, n ≤ fuel →
      fromHexCore (toHexAux fuel n acc) a = fromHexCore acc (a * hexB n + n) := by
  intro fuel
  induction fuel with
  | zero =>
    intro n acc a hn
    interval_cases n
    simp [toHexAux, hexB]
  | succ f ih =>
    intro n acc a hn
    match n with
    | 0 => simp [toHexAux, hexB]
    | k + 1 =>
      have hle : (k + 1) / 16 ≤ f := by
        have := Nat.div_lt_self (Nat.succ_pos k) (show 1 < 16 by omega)
        omega
      have hrec : toHexAux (f + 1) (k + 1) acc
          = toHexAux f ((k + 1) / 16) (hexDigit ((k + 1) % 16) :: acc) := rfl
      rw [hrec, ih _ _ _ hle]
      have hmod : (k + 1) % 16 < 16 := Nat.mod_lt _ (by omega)
      have hdig : fromHexCore (hexDigit ((k + 1) % 16) :: acc)
            (a * hexB ((k + 1) / 16) + (k + 1) / 16)
          = fromHexCore acc
            ((a * hexB ((k + 1) / 16) + (k + 1) / 16) * 16 + (k + 1) % 16) := by
        simp [fromHexCore, hexVal_hexDigit _ hmod]
      rw [hdig]
      have hB : hexB (k + 1) = 16 * hexB ((k + 1) / 16) := by
        simp [hexB]
      have hdm : 16 * ((k + 1) / 16) + (k + 1) % 16 = k + 1 :=
        Nat.div_add_mod (k + 1) 16
      congr 1
      rw [hB, show a * (16 * hexB ((k + 1) / 16)) = 16 * (a * hexB ((k + 1) / 16)) from by ring]
      generalize a * hexB ((k + 1) / 16) = c
      omega

theorem fromHex_toHex (n : Nat) : fromHex (toHex n) = some n := by
  by_cases h0 : n = 0
  · subst h0; decide
  · have hmain := fromHexCore_toHexAux n n [] 0 (Nat.le_refl n)
    have hval : fromHexCore (toHexAux n n []) 0 = some n := by
      rw [hmain]; simp [fromHexCore]
    have hne : (toHexAux n n []).isEmpty = false := by
      cases hl : toHexAux n n [] with
      | nil =>
        rw [hl] at hval
        simp [fromHexCore] at hval
        exact absurd hval.symm h0
      | cons c cs => simp
    simp [toHex, h0, fromHex, hne, hval]

theorem insertSorted_perm {α : Type} (k : Nat) (v : α) :
    ∀ l : List (Nat × α), List.Perm (insertSorted k v l) ((k, v) :: l)
  | [] => List.Perm.refl _
  | (k2, v2) :: rest => by
    by_cases h : k < k2
    · simp [insertSorted, h]
    · simp only [insertSorted, if_neg h]
      exact List.Perm.trans
        (List.Perm.cons _ (insertSorted_perm k v rest))
        (List.Perm.swap (k, v) (k2, v2) rest)

theorem mem_insertSorted {α : Type} (k : Nat) (v : α) (l : List (Nat × α))
    (p : Nat × α) : p ∈ insertSorted k v l ↔ p = (k, v) ∨ p ∈ l := by
  rw [List.Perm.mem_iff (insertSorted_perm k v l)]
  simp

theorem insertSorted_sorted {α : Type} (k : Nat) (v : α) :
    ∀ l : List (Nat × α), List.Pairwise keyLt l →
      (∀ p ∈ l, p.1 ≠ k) → List.Pairwise keyLt (insertSorted k v l)
  | [], _, _ => by simp [insertSorted]
  | (k2, v2) :: rest, hs, hne => by
    rcases List.pairwise_cons.mp hs with ⟨hhead, htail⟩
    by_cases h : k < k2
    · simp only [insertSorted, if_pos h]
      refine List.pairwise_cons.mpr ⟨?_, hs⟩
      intro q hq
      rcases List.mem_cons.mp hq with rfl | hq
      · exact h
      · exact Nat.lt_trans h (hhead q hq)
    · simp only [insertSorted, if_neg h]
      refine List.pairwise_cons.mpr ⟨?_, ?_⟩
      · intro q hq
        rcases (mem_insertSorted k v rest q).mp hq with rfl | hq
        · have : k2 ≠ k := hne (k2, v2) (List.mem_cons_self _ _)
          show k2 < k
          omega
        · exact hhead q hq
      · exact insertSorted_sorted k v rest htail
          (fun p hp => hne p (List.mem_cons_of_mem _ hp))

theorem lookup_insertSorted_self {α : Type} (k : Nat) (v : α) :
    ∀ l : List (Nat × α), (∀ p ∈ l, p.1 ≠ k) →
      (insertSorted k v l).lookup k = some v
  | [], _ => by simp [insertSorted, List.lookup]
  | (k2, v2) :: rest, hne => by
    have hk2 : k2 ≠ k := hne (k2, v2) (List.mem_cons_self _ _)
    by_cases h : k < k2
    · simp [insertSorted, h, List.lookup]
    · simp only [insertSorted, if_neg h, List.lookup]
      have : (k == k2) = false := by simp [Ne.symm hk2]
      rw [this]
      exact lookup_insertSorted_self k v rest
        (fun p hp => hne p (List.mem_cons_of_mem _ hp))

theorem lookup_insertSorted_ne {α : Type} (k : Nat) (v : α) (c : Nat)
    (hck : c ≠ k) :
    ∀ l : List (Nat × α), (insertSorted k v l).lookup c = l.lookup c
  | [] => by
    simp only [insertSorted, List.lookup,
      show (c == k) = false from by simp [hck]]
  | (k2, v2) :: rest => by
    by_cases h : k < k2
    · simp only [insertSorted, if_pos h, List.lookup,
        show (c == k) = false from by simp [hck]]
    · simp only [insertSorted, if_neg h, List.lookup]
      cases hc2 : c == k2 with
      | true => rfl
      | false => exact lookup_insertSorted_ne k v c hck rest

theorem lookup_eq_some_of_mem {α : Type} {k : Nat} {v : α} :
    ∀ {l : List (Nat × α)}, (l.map Prod.fst).Nodup → (k, v) ∈ l →
      l.lookup k = some v
  | [], _, hm => absurd hm (List.not_mem_nil _)
  | (k2, v2) :: rest, hnd, hm => by
    rcases List.mem_cons.mp hm with heq | hm2
    · rw [show k2 = k from (Prod.mk.injEq _ _ _ _ ▸ heq.symm).1,
        show v2 = v from (Prod.mk.injEq _ _ _ _ ▸ heq.symm).2]
      simp [List.lookup]
    · have hk2 : k2 ≠ k := by
        intro heq2
        subst heq2
        have : k2 ∈ rest.map Prod.fst :=
          List.mem_map.mpr ⟨(k2, v), hm2, rfl⟩
        exact (List.nodup_cons.mp (by simpa using hnd)).1 this
      simp only [List.lookup]
      rw [show (k == k2) = false from by simp [Ne.symm hk2]]
      exact lookup_eq_some_of_mem (by simpa using (List.nodup_cons.mp (by simpa using hnd)).2) hm2

theorem lookup_eq_none_iff {α : Type} (k : Nat) :
    ∀ l : List (Nat × α), l.lookup k = none ↔ k ∉ l.map Prod.fst
  | [] => by simp [List.lookup]
  | (k2, v2) :: rest => by
    simp only [List.lookup, List.map_cons, List.mem_cons]
    cases hc : k == k2 with
    | true =>
      simp only [beq_iff_eq] at hc
      simp [hc]
    | false =>
      simp only [beq_eq_false_iff_ne, ne_eq] at hc
      rw [lookup_eq_none_iff k rest]
      simp [hc]

theorem mem_of_lookup_eq_some {α : Type} {k : Nat} {v : α} :
    ∀ {l : List (Nat × α)}, l.lookup k = some v → (k, v) ∈ l
  | [], h => by simp [List.lookup] at h
  | (k2, v2) :: rest, h => by
    revert h
    simp only [List.lookup]
    cases hc : k == k2 with
    | true =>
      intro h
      simp only [beq_iff_eq] at hc
      simp only [Option.some.injEq] at h
      subst hc; subst h
      exact List.mem_cons_self _ _
    | false =>
      intro h
      exact List.mem_cons_of_mem _ (mem_of_lookup_eq_some h)

theorem lookup_perm {α : Type} {l1 l2 : List (Nat × α)}
    (hnd : (l1.map Prod.fst).Nodup) (hp : List.Perm l1 l2) (k : Nat) :
    l1.lookup k = l2.lookup k := by
  have hnd2 : (l2.map Prod.fst).Nodup := (hp.map Prod.fst).nodup_iff.mp hnd
  cases hl : l1.lookup k with
  | some v =>
    exact (lookup_eq_some_of_mem hnd2 (hp.mem_iff.mp
      (mem_of_lookup_eq_some hl))).symm
  | none =>
    have hk : k ∉ l1.map Prod.fst := (lookup_eq_none_iff k l1).mp hl
    have hk2 : k ∉ l2.map Prod.fst := fun hmem =>
      hk ((hp.map Prod.fst).mem_iff.mpr hmem)
    exact ((lookup_eq_none_iff k l2).mpr hk2).symm

theorem insertAll_perm {α : Type} :
    ∀ (ps l : List (Nat × α)), List.Perm (insertAll l ps) (l ++ ps)
  | [], l => by simp [insertAll]
  | p :: ps, l => by
    simp only [insertAll, List.foldl_cons]
    have h1 : List.Perm (insertAll (insertSorted p.1 p.2 l) ps)
        (insertSorted p.1 p.2 l ++ ps) := insertAll_perm ps _
    have h2 : List.Perm (insertSorted p.1 p.2 l ++ ps) ((p :: l) ++ ps) :=
      List.Perm.append_right ps (insertSorted_perm p.1 p.2 l)
    have h3 : List.Perm ((p :: l) ++ ps) (l ++ p :: ps) := by
      simp only [List.cons_append]
      exact List.perm_middle.symm
    exact h1.trans (h2.trans h3)

theorem insertAll_sorted {α : Type} :
    ∀ (ps l : List (Nat × α)), List.Pairwise keyLt l →
      ((l ++ ps).map Prod.fst).Nodup → List.Pairwise keyLt (insertAll l ps)
  | [], l, hs, _ => hs
  | p :: ps, l, hs, hnd => by
    simp only [insertAll, List.foldl_cons]
    have hfresh : ∀ q ∈ l, q.1 ≠ p.1 := by
      intro q hq heq
      have h1 : q.1 ∈ l.map Prod.fst := List.mem_map.mpr ⟨q, hq, rfl⟩
      have hd := List.disjoint_of_nodup_append (by simpa using hnd)
      exact hd h1 (by rw [heq]; simp)
    have hs2 : List.Pairwise keyLt (insertSorted p.1 p.2 l) :=
      insertSorted_sorted p.1 p.2 l hs hfresh
    have hnd2 : ((insertSorted p.1 p.2 l ++ ps).map Prod.fst).Nodup := by
      have ha : List.Perm (insertSorted p.1 p.2 l ++ ps) ((p :: l) ++ ps) :=
        List.Perm.append_right ps (insertSorted_perm p.1 p.2 l)
      have hb : List.Perm ((p :: l) ++ ps) (l ++ p :: ps) := by
        simp only [List.cons_append]
        exact List.perm_middle.symm
      exact (((ha.trans hb).map Prod.fst).nodup_iff).mpr hnd
    exact insertAll_sorted ps (insertSorted p.1 p.2 l) hs2 hnd2

theorem sorted_eq_of_perm {α : Type} {l1 l2 : List (Nat × α)}
    (h1 : List.Pairwise keyLt l1) (h2 : List.Pairwise keyLt l2)
    (hp : List.Perm l1 l2) : l1 = l2 :=
  List.eq_of_perm_of_sorted hp h1 h2

theorem pairwise_keyLt_nodup_keys {α : Type} {l : List (Nat × α)}
    (h : List.Pairwise keyLt l) : (l.map Prod.fst).Nodup := by
  rw [List.Nodup, List.pairwise_map]
  exact h.imp (fun hlt => Nat.ne_of_lt hlt)

theorem exBind_ok {α β : Type} (a : α) (f : α → Except String β) :
    (Except.ok a : Except String α) >>= f = f a := rfl

theorem getJson_collection_name (gcols : List (Nat × String))
    (ce : CollectionEntry) :
    getJsonObject (collectionToJson gcols ce) "name" JType.strT
      = Except.ok (Json.str (entryName gcols ce)) := by
  obtain ⟨cid, mt⟩ := ce
  cases mt <;> rfl

theorem getJson_collection_uid (gcols : List (Nat × String))
    (ce : CollectionEntry) :
    getJsonObject (collectionToJson gcols ce) "uid" JType.strT
      = Except.ok (Json.str (String.mk (toHex ce.cid))) := by
  obtain ⟨cid, mt⟩ := ce
  cases mt <;> rfl

theorem getOptional_collection_ttl (gcols : List (Nat × String))
    (ce : CollectionEntry) :
    getOptionalJsonObject (collectionToJson gcols ce) "max_ttl" JType.numT
      = Except.ok (ce.maxTtl.map Json.num) := by
  obtain ⟨cid, mt⟩ := ce
  cases mt <;> rfl

theorem getJson_scope_name (gcols : List (Nat × String)) (p : Nat × MScope) :
    getJsonObject (scopeJson gcols p) "name" JType.strT
      = Except.ok (Json.str p.2.name) := rfl

theorem getJson_scope_uid (gcols : List (Nat × String)) (p : Nat × MScope) :
    getJsonObject (scopeJson gcols p) "uid" JType.strT
      = Except.ok (Json.str (String.mk (toHex p.1))) := rfl

theorem getJson_scope_cols (gcols : List (Nat × String)) (p : Nat × MScope) :
    getJsonObject (scopeJson gcols p) "collections" JType.arrT
      = Except.ok (Json.arr (p.2.collections.map (collectionToJson gcols))) :=
  rfl

theorem parseCollections_roundtrip (maxSz : Nat) (gcols : List (Nat × String))
    (sid : Nat) :
    ∀ (ces : List CollectionEntry) (cols : List (Nat × String))
      (scopeCols : List CollectionEntry) (dflt : Bool),
      (∀ ce ∈ ces, (ce.cid, entryName gcols ce) ∈ gcols) →
      (∀ p ∈ gcols, validName maxSz p.2.data = true) →
      (∀ ce ∈ ces, ce.cid ∉ cols.map Prod.fst) →
      ((ces.map (fun ce => ce.cid)).Nodup) →
      (∀ e ∈ scopeCols, cols.lookup e.cid = some (entryName gcols e)) →
      (((scopeCols ++ ces).map (entryName gcols)).Nodup) →
      (∀ ce ∈ ces, ce.cid ≠ 1) →
      (∀ ce ∈ ces, ce.cid = 0 → sid = 0) →
      (∀ ce ∈ ces, ∀ t, ce.maxTtl = some t → t ≤ 4294967295) →
      parseCollections maxSz sid (ces.map (collectionToJson gcols)) cols
          scopeCols dflt
        = Except.ok
            (insertAll cols (ces.map (fun ce => (ce.cid, entryName gcols ce))),
             scopeCols ++ ces,
             dflt || ces.any (fun ce => ce.cid == 0)) := by
  intro ces
  induction ces with
  | nil =>
    intro cols scopeCols dflt _ _ _ _ _ _ _ _ _
    simp [parseCollections, insertAll]
  | cons ce rest ih =>
    intro cols scopeCols dflt hmem hvn hfresh hcnodup hname hnames hnot1
      hdflt0 httl
    obtain ⟨kvs0, hkv⟩ : ∃ kvs, collectionToJson gcols ce = Json.obj kvs := by
      obtain ⟨c2, mt⟩ := ce
      cases mt <;> exact ⟨_, rfl⟩
    simp only [List.map_cons, parseCollections, getJson_collection_name,
      getJson_collection_uid, getOptional_collection_ttl, exBind_ok]
    simp only [hkv]
    rw [fromHex_toHex]
    simp only
    have hv : validName maxSz (entryName gcols ce).data = true :=
      hvn _ (hmem ce (List.mem_cons_self _ _))
    rw [if_neg (show ¬((!validName maxSz (entryName gcols ce).data) = true)
      from by simp [hv])]
    rw [if_neg (show ¬((ce.cid == 1) = true) from by
      simp [hnot1 ce (List.mem_cons_self _ _)])]
    have hln : cols.lookup ce.cid = none :=
      (lookup_eq_none_iff _ _).mpr (hfresh ce (List.mem_cons_self _ _))
    rw [if_neg (show ¬((cols.lookup ce.cid).isSome = true) from by
      simp [hln])]
    have hany : (scopeCols.any (fun e =>
        match cols.lookup e.cid with
        | some n => n == entryName gcols ce
        | none => false)) = false := by
      rw [List.any_eq_false]
      intro e he
      rw [hname e he]
      have hdisj := List.disjoint_of_nodup_append (by
        simpa using hnames)
      have h1 : entryName gcols e ∈ scopeCols.map (entryName gcols) :=
        List.mem_map.mpr ⟨e, he, rfl⟩
      have h2 : entryName gcols e ∉ (ce :: rest).map (entryName gcols) :=
        fun hc => hdisj h1 hc
      simp only [List.map_cons, List.mem_cons] at h2
      push_neg at h2
      simp [h2.1]
    rw [if_neg (show ¬((scopeCols.any (fun e =>
        match cols.lookup e.cid with
        | some n => n == entryName gcols ce
        | none => false)) = true) from by simp [hany])]
    rw [if_neg (show ¬((ce.cid == 0 && sid != 0) = true) from by
      intro hc
      simp only [Bool.and_eq_true, beq_iff_eq, bne_iff_ne, ne_eq] at hc
      exact hc.2 (hdflt0 ce (List.mem_cons_self _ _) hc.1))]
    have hrest :
        parseCollections maxSz sid (rest.map (collectionToJson gcols))
            (insertSorted ce.cid (entryName gcols ce) cols)
            (scopeCols ++ [ce]) (dflt || (ce.cid == 0))
          = Except.ok
              (insertAll (insertSorted ce.cid (entryName gcols ce) cols)
                 (rest.map (fun c2 => (c2.cid, entryName gcols c2))),
               (scopeCols ++ [ce]) ++ rest,
               (dflt || (ce.cid == 0)) || rest.any (fun c2 => c2.cid == 0)) := by
      apply ih
      · exact fun c2 hc2 => hmem c2 (List.mem_cons_of_mem _ hc2)
      · exact hvn
      · intro c2 hc2 hkmem
        have hperm := (insertSorted_perm ce.cid (entryName gcols ce)
          cols).map Prod.fst
        have := hperm.mem_iff.mp hkmem
        simp only [List.map_cons, List.mem_cons] at this
        rcases this with heq | hmem2
        · have hmm : c2.cid ∈ (rest.map (fun c3 => c3.cid)) :=
            List.mem_map.mpr ⟨c2, hc2, rfl⟩
          rw [heq] at hmm
          exact (List.nodup_cons.mp (by simpa using hcnodup)).1 hmm
        · exact hfresh c2 (List.mem_cons_of_mem _ hc2) hmem2
      · exact (List.nodup_cons.mp (by simpa using hcnodup)).2
      · intro e he
        rcases List.mem_append.mp he with he1 | he2
        · have hkne : e.cid ≠ ce.cid := by
            intro heq
            have hl2 : cols.lookup e.cid = some (entryName gcols e) :=
              hname e he1
            rw [heq, hln] at hl2
            cases hl2
          rw [lookup_insertSorted_ne _ _ _ hkne]
          exact hname e he1
        · have hee : e = ce := by simpa using he2
          subst hee
          exact lookup_insertSorted_self _ _ _ (fun p hp hpk => by
            have hmm : e.cid ∈ cols.map Prod.fst :=
              List.mem_map.mpr ⟨p, hp, hpk⟩
            exact hfresh e (List.mem_cons_self _ _) hmm)
      · have happ : (scopeCols ++ [ce]) ++ rest = scopeCols ++ ce :: rest := by
          simp
        rw [happ]
        exact hnames
      · exact fun c2 hc2 => hnot1 c2 (List.mem_cons_of_mem _ hc2)
      · exact fun c2 hc2 => hdflt0 c2 (List.mem_cons_of_mem _ hc2)
      · exact fun c2 hc2 => httl c2 (List.mem_cons_of_mem _ hc2)
    cases hmt : ce.maxTtl with
    | none =>
      simp only [Option.map]
      have hce : ce = ({ cid := ce.cid, maxTtl := none } : CollectionEntry) := by
        obtain ⟨c2, mt⟩ := ce
        simp only at hmt
        rw [hmt]
      rw [← hce, hrest]
      simp [insertAll, Bool.or_assoc]
    | some t =>
      simp only [Option.map]
      rw [if_neg (show ¬(t > 4294967295) from by
        have := httl ce (List.mem_cons_self _ _) t hmt
        omega)]
      have hce : ce = ({ cid := ce.cid, maxTtl := some t } : CollectionEntry) := by
        obtain ⟨c2, mt⟩ := ce
        simp only at hmt
        rw [hmt]
      rw [← hce, hrest]
      simp [insertAll, Bool.or_assoc]

theorem mem_allPairs (gcols : List (Nat × String)) :
    ∀ (ss : List (Nat × MScope)) (q : Nat × MScope) (ce : CollectionEntry),
      q ∈ ss → ce ∈ q.2.collections →
      (ce.cid, entryName gcols ce) ∈ allPairs gcols ss
  | [], q, ce, hq, _ => absurd hq (List.not_mem_nil _)
  | p :: rest, q, ce, hq, hce => by
    rcases List.mem_cons.mp hq with rfl | hq2
    · exact List.mem_append_left _
        (List.mem_map.mpr ⟨ce, hce, rfl⟩)
    · exact List.mem_append_right _ (mem_allPairs gcols rest q ce hq2 hce)

theorem any_map_cid (gcols : List (Nat × String)) (l : List CollectionEntry) :
    (l.map (fun ce => (ce.cid, entryName gcols ce))).any (fun q => q.1 == 0)
      = l.any (fun ce => ce.cid == 0) := by
  induction l with
  | nil => rfl
  | cons ce rest ih => simp [List.any_cons, ih]

theorem parseScopes_roundtrip (maxSz maxCols : Nat)
    (gcols : List (Nat × String)) :
    ∀ (ss : List (Nat × MScope)) (scopes : List (Nat × MScope))
      (cols : List (Nat × String)) (dflt : Bool),
      List.Pairwise keyLt cols →
      (∀ p ∈ gcols, validName maxSz p.2.data = true) →
      (∀ p ∈ ss, ∀ ce ∈ p.2.collections,
        (ce.cid, entryName gcols ce) ∈ gcols) →
      (∀ p ∈ ss, validName maxSz p.2.name.data = true) →
      (∀ p ∈ ss, p.1 ∉ scopes.map Prod.fst) →
      ((ss.map Prod.fst).Nodup) →
      (∀ p ∈ ss, ∀ q ∈ scopes, (q.2.name == p.2.name) = false) →
      ((ss.map (fun p => p.2.name)).Nodup) →
      (cols.length + (allPairs gcols ss).length ≤ maxCols) →
      (∀ p ∈ ss, ∀ ce ∈ p.2.collections, ce.cid ∉ cols.map Prod.fst) →
      (((allPairs gcols ss).map Prod.fst).Nodup) →
      (∀ p ∈ ss, ((scopePairs gcols p.2).map Prod.snd).Nodup) →
      (∀ p ∈ ss, ∀ ce ∈ p.2.collections, ce.cid ≠ 1) →
      (∀ p ∈ ss, ∀ ce ∈ p.2.collections, ce.cid = 0 → p.1 = 0) →
      (∀ p ∈ ss, ∀ ce ∈ p.2.collections,
        ∀ t, ce.maxTtl = some t → t ≤ 4294967295) →
      parseScopes maxSz maxCols (ss.map (scopeJson gcols)) scopes cols dflt
        = Except.ok (insertAll scopes ss, insertAll cols (allPairs gcols ss),
            dflt || (allPairs gcols ss).any (fun q => q.1 == 0)) := by
  intro ss
  induction ss with
  | nil =>
    intro scopes cols dflt _ _ _ _ _ _ _ _ _ _ _ _ _ _ _
    simp [parseScopes, allPairs, insertAll]
  | cons p rest ih =>
    intro scopes cols dflt hsortC hvnG hmemG hsname hsfresh hsnodup
      hnamefresh hnamenodup hcount hcfresh hcnodup hpsnodup hnot1 hdflt0 httl
    simp only [List.map_cons, parseScopes, getJson_scope_name,
      getJson_scope_uid, getJson_scope_cols, exBind_ok]
    simp only [scopeJson]
    rw [if_neg (show ¬((!validName maxSz p.2.name.data) = true) from by
      simp [hsname p (List.mem_cons_self _ _)])]
    rw [fromHex_toHex]
    simp only
    have hlk : scopes.lookup p.1 = none :=
      (lookup_eq_none_iff _ _).mpr (hsfresh p (List.mem_cons_self _ _))
    rw [if_neg (show ¬((scopes.lookup p.1).isSome = true) from by simp [hlk])]
    have hanyn : (scopes.any (fun q => q.2.name == p.2.name)) = false := by
      rw [List.any_eq_false]
      intro q hq
      simp [hnamefresh p (List.mem_cons_self _ _) q hq]
    rw [if_neg (show ¬((scopes.any (fun q => q.2.name == p.2.name)) = true)
      from by simp [hanyn])]
    have hsplitlen : (allPairs gcols (p :: rest)).length
        = p.2.collections.length + (allPairs gcols rest).length := by
      simp [allPairs, scopePairs]
    rw [if_neg (show ¬((p.2.collections.map (collectionToJson gcols)).length
        + cols.length > maxCols) from by
      simp only [List.length_map, gt_iff_lt, not_lt]
      omega)]
    have hcn0 : ((scopePairs gcols p.2).map Prod.fst
        ++ (allPairs gcols rest).map Prod.fst).Nodup := by
      have h2 := hcnodup
      rw [show allPairs gcols (p :: rest)
          = scopePairs gcols p.2 ++ allPairs gcols rest from rfl,
        List.map_append] at h2
      exact h2
    have hcnL : ((scopePairs gcols p.2).map Prod.fst).Nodup :=
      (List.nodup_append.mp hcn0).1
    have hcnR : ((allPairs gcols rest).map Prod.fst).Nodup :=
      (List.nodup_append.mp hcn0).2.1
    have hdisjK : ((scopePairs gcols p.2).map Prod.fst).Disjoint
        ((allPairs gcols rest).map Prod.fst) :=
      (List.nodup_append.mp hcn0).2.2
    have hmapfst : (scopePairs gcols p.2).map Prod.fst
        = p.2.collections.map (fun ce => ce.cid) := by
      simp [scopePairs, List.map_map, Function.comp]
    have hmapsnd : (scopePairs gcols p.2).map Prod.snd
        = p.2.collections.map (entryName gcols) := by
      simp [scopePairs, List.map_map, Function.comp]
    have hcolnodup : (p.2.collections.map (fun ce => ce.cid)).Nodup :=
      hmapfst ▸ hcnL
    have hnames0 : (([] ++ p.2.collections).map (entryName gcols)).Nodup := by
      simp only [List.nil_append]
      exact hmapsnd ▸ hpsnodup p (List.mem_cons_self _ _)
    rw [parseCollections_roundtrip maxSz gcols p.1 p.2.collections cols [] dflt
      (hmemG p (List.mem_cons_self _ _)) hvnG
      (hcfresh p (List.mem_cons_self _ _))
      hcolnodup
      (fun e he => absurd he (List.not_mem_nil _))
      hnames0
      (hnot1 p (List.mem_cons_self _ _))
      (hdflt0 p (List.mem_cons_self _ _))
      (httl p (List.mem_cons_self _ _)), exBind_ok]
    dsimp only
    simp only [List.nil_append]
    rw [show (⟨p.2.name, p.2.collections⟩ : MScope) = p.2 from rfl]
    have hsort2 : List.Pairwise keyLt
        (insertAll cols (p.2.collections.map
          (fun ce => (ce.cid, entryName gcols ce)))) := by
      apply insertAll_sorted _ _ hsortC
      rw [List.map_append]
      refine List.nodup_append.mpr ⟨pairwise_keyLt_nodup_keys hsortC, ?_, ?_⟩
      · rw [show (p.2.collections.map
            (fun ce => (ce.cid, entryName gcols ce))) = scopePairs gcols p.2
            from rfl, hmapfst]
        exact hcolnodup
      · intro a ha hb
        rw [show (p.2.collections.map
            (fun ce => (ce.cid, entryName gcols ce))) = scopePairs gcols p.2
            from rfl, hmapfst] at hb
        rcases List.mem_map.mp hb with ⟨ce, hce, rfl⟩
        exact hcfresh p (List.mem_cons_self _ _) ce hce ha
    have hkeysperm : List.Perm
        ((insertAll cols (p.2.collections.map
          (fun ce => (ce.cid, entryName gcols ce)))).map Prod.fst)
        (cols.map Prod.fst ++ (scopePairs gcols p.2).map Prod.fst) := by
      have hp2 := (insertAll_perm (p.2.collections.map
        (fun ce => (ce.cid, entryName gcols ce))) cols).map Prod.fst
      rw [List.map_append] at hp2
      exact hp2
    have hlen2 : (insertAll cols (p.2.collections.map
        (fun ce => (ce.cid, entryName gcols ce)))).length
        = cols.length + p.2.collections.length := by
      have hp2 := (insertAll_perm (p.2.collections.map
        (fun ce => (ce.cid, entryName gcols ce))) cols).length_eq
      simpa using hp2
    have hscons : (p.1 :: rest.map Prod.fst).Nodup := by
      have h := hsnodup
      rw [List.map_cons] at h
      exact h
    have hncons : (p.2.name :: rest.map (fun q => q.2.name)).Nodup := by
      have h := hnamenodup
      rw [List.map_cons] at h
      exact h
    rw [ih (insertSorted p.1 p.2 scopes)
      (insertAll cols (p.2.collections.map
        (fun ce => (ce.cid, entryName gcols ce))))
      (dflt || p.2.collections.any (fun ce => ce.cid == 0))
      hsort2 hvnG
      (fun q hq ce hce => hmemG q (List.mem_cons_of_mem _ hq) ce hce)
      (fun q hq => hsname q (List.mem_cons_of_mem _ hq))
      (?_)
      ((List.nodup_cons.mp hscons).2)
      (?_)
      ((List.nodup_cons.mp hncons).2)
      (?_)
      (?_)
      hcnR
      (fun q hq => hpsnodup q (List.mem_cons_of_mem _ hq))
      (fun q hq ce hce => hnot1 q (List.mem_cons_of_mem _ hq) ce hce)
      (fun q hq ce hce => hdflt0 q (List.mem_cons_of_mem _ hq) ce hce)
      (fun q hq ce hce => httl q (List.mem_cons_of_mem _ hq) ce hce)]
    · simp only [insertAll, allPairs, scopePairs, List.foldl_append,
        List.foldl_cons, Bool.or_assoc, List.any_append, any_map_cid]
    · intro q hq hk
      have hperm := (insertSorted_perm p.1 p.2 scopes).map Prod.fst
      have hm := hperm.mem_iff.mp hk
      simp only [List.map_cons, List.mem_cons] at hm
      rcases hm with heq | hm2
      · have hqm : q.1 ∈ rest.map Prod.fst := List.mem_map.mpr ⟨q, hq, rfl⟩
        rw [heq] at hqm
        exact (List.nodup_cons.mp hscons).1 hqm
      · exact hsfresh q (List.mem_cons_of_mem _ hq) hm2
    · intro q2 hq2 q hq
      rcases (mem_insertSorted p.1 p.2 scopes q).mp hq with rfl | hq3
      · have hnn := (List.nodup_cons.mp hncons).1
        simp only [beq_eq_false_iff_ne, ne_eq]
        intro heq
        exact hnn (heq ▸ List.mem_map.mpr ⟨q2, hq2, rfl⟩)
      · exact hnamefresh q2 (List.mem_cons_of_mem _ hq2) q hq3
    · rw [hlen2]
      omega
    · intro q hq ce hce hk
      have hm := hkeysperm.mem_iff.mp hk
      rcases List.mem_append.mp hm with hin | hin
      · exact hcfresh q (List.mem_cons_of_mem _ hq) ce hce hin
      · have hr : ce.cid ∈ (allPairs gcols rest).map Prod.fst :=
          List.mem_map.mpr ⟨(ce.cid, entryName gcols ce),
            mem_allPairs gcols rest q ce hq hce, rfl⟩
        exact hdisjK hin hr

theorem allPairs_perm (gcols : List (Nat × String))
    {ss1 ss2 : List (Nat × MScope)} (h : List.Perm ss1 ss2) :
    List.Perm (allPairs gcols ss1) (allPairs gcols ss2) := by
  induction h with
  | nil => exact List.Perm.refl _
  | cons x _ ih => exact ih.append_left _
  | swap x y l =>
    have hcomm : ∀ a b c : List (Nat × String),
        List.Perm (a ++ (b ++ c)) (b ++ (a ++ c)) := fun a b c => by
      rw [← List.append_assoc, ← List.append_assoc]
      exact List.perm_append_comm.append_right c
    exact hcomm _ _ _
  | trans _ _ ih1 ih2 => exact ih1.trans ih2

/-- C8: encoding a well-formed manifest with toJson and parsing the result
with the Manifest constructor yields exactly the original manifest — same
uid, scope map, global collection map (with maxTtl values) and recomputed
default-collection flag — for any iteration order of the scope and
collection maps: any permuted variant m2 of m parses back to the canonical
m. -/
theorem manifest_roundtrip (maxSz maxScopes maxCols : Nat) (m m2 : Manifest)
    (hwf : Manifest.wf maxSz m)
    (hu : m2.uid = m.uid)
    (hs : List.Perm m2.scopes m.scopes)
    (hc : List.Perm m2.collections m.collections)
    (hns : m.scopes.length ≤ maxScopes)
    (hnc : m.collections.length ≤ maxCols) :
    parseManifest maxSz maxScopes maxCols (Manifest.toJson m2)
      = Except.ok m := by
  obtain ⟨hps, hpc, hknd, hceq, hdef0, hvns, hnnd, hpsn, hn1, hd0, httl,
    hvnc, hdfl⟩ := hwf
  have hPermCA : List.Perm m.collections (allPairs m.collections m.scopes) := by
    conv_lhs => rw [hceq]
    simpa using insertAll_perm (allPairs m.collections m.scopes) []
  have hndc2 : (m2.collections.map Prod.fst).Nodup :=
    ((hc.map Prod.fst).nodup_iff).mpr (pairwise_keyLt_nodup_keys hpc)
  have hlkagree : ∀ k, m2.collections.lookup k = m.collections.lookup k :=
    fun k => lookup_perm hndc2 hc k
  have hfg : collectionToJson m2.collections
      = collectionToJson m.collections := by
    funext ce
    simp only [collectionToJson]
    rw [hlkagree ce.cid]
  have hsj : scopeJson m2.collections = scopeJson m.collections := by
    funext p
    simp only [scopeJson]
    rw [hfg]
  have hgu : getJsonObject (Manifest.toJson m2) "uid" JType.strT
      = Except.ok (Json.str (String.mk (toHex m2.uid))) := rfl
  have hgs : getJsonObject (Manifest.toJson m2) "scopes" JType.arrT
      = Except.ok (Json.arr (m2.scopes.map (scopeJson m2.collections))) := rfl
  simp only [parseManifest, hgu, hgs, exBind_ok]
  rw [fromHex_toHex]
  simp only
  rw [if_neg (show ¬((m2.scopes.map (scopeJson m2.collections)).length
      > maxScopes) from by
    simp only [List.length_map, gt_iff_lt, not_lt]
    have := hs.length_eq
    omega)]
  rw [hsj]
  have happm := allPairs_perm m.collections hs
  have hcn2 : ((allPairs m.collections m2.scopes).map Prod.fst).Nodup :=
    ((happm.map Prod.fst).nodup_iff).mpr hknd
  rw [parseScopes_roundtrip maxSz maxCols m.collections m2.scopes [] [] false
    List.Pairwise.nil
    hvnc
    (fun p hp ce hce => (hPermCA.mem_iff).mpr
      (mem_allPairs m.collections m.scopes p ce (hs.subset hp) hce))
    (fun p hp => hvns p (hs.subset hp))
    (fun p _ hmem => absurd hmem (List.not_mem_nil _))
    (((hs.map Prod.fst).nodup_iff).mpr (pairwise_keyLt_nodup_keys hps))
    (fun p _ q hq => absurd hq (List.not_mem_nil _))
    (((hs.map (fun p => p.2.name)).nodup_iff).mpr hnnd)
    (by
      simp only [List.length_nil, Nat.zero_add]
      have h1 := happm.length_eq
      have h2 := hPermCA.length_eq
      omega)
    (fun p _ ce _ hmem => absurd hmem (List.not_mem_nil _))
    hcn2
    (fun p hp => hpsn p (hs.subset hp))
    (fun p hp ce hce => hn1 p (hs.subset hp) ce hce)
    (fun p hp ce hce => hd0 p (hs.subset hp) ce hce)
    (fun p hp ce hce t ht => by
      have h2 := httl p (hs.subset hp) ce hce
      rw [ht] at h2
      exact h2), exBind_ok]
  dsimp only
  have hseq : insertAll [] m2.scopes = m.scopes := by
    refine sorted_eq_of_perm ?_ hps ?_
    · refine insertAll_sorted m2.scopes [] List.Pairwise.nil ?_
      simpa using ((hs.map Prod.fst).nodup_iff).mpr
        (pairwise_keyLt_nodup_keys hps)
    · refine List.Perm.trans ?_ hs
      simpa using insertAll_perm m2.scopes []
  have hceq2 : insertAll [] (allPairs m.collections m2.scopes)
      = m.collections := by
    refine sorted_eq_of_perm ?_ hpc ?_
    · refine insertAll_sorted _ [] List.Pairwise.nil ?_
      simpa using hcn2
    · refine List.Perm.trans ?_ (List.Perm.trans happm hPermCA.symm)
      simpa using insertAll_perm (allPairs m.collections m2.scopes) []
  rw [hseq, hceq2]
  have hne : m.scopes.isEmpty = false := by
    cases hm0 : m.scopes with
    | nil =>
      rw [hm0] at hdef0
      simp [List.lookup] at hdef0
    | cons a l => rfl
  rw [if_neg (show ¬(m.scopes.isEmpty = true) from by simp [hne])]
  rw [if_neg (show ¬((m.scopes.lookup 0).isNone = true) from by
    cases hl0 : m.scopes.lookup 0 with
    | none =>
      rw [hl0] at hdef0
      simp at hdef0
    | some v => simp)]
  rw [hu]
  have hany0 : ((allPairs m.collections m2.scopes).any (fun q => q.1 == 0))
      = (m.collections.lookup 0).isSome := by
    cases hlk0 : m.collections.lookup 0 with
    | some v =>
      have hmem0 : ((0 : Nat), v) ∈ allPairs m.collections m2.scopes :=
        ((hPermCA.trans happm.symm).mem_iff).mp (mem_of_lookup_eq_some hlk0)
      rw [show (Option.isSome (some v)) = true from rfl, List.any_eq_true]
      exact ⟨(0, v), hmem0, by simp⟩
    | none =>
      rw [show (Option.isSome (none : Option String)) = false from rfl,
        List.any_eq_false]
      intro q hq
      have hqm : q ∈ m.collections :=
        ((hPermCA.trans happm.symm).mem_iff).mpr hq
      simp only [beq_iff_eq, ne_eq]
      intro h0
      have hk0 : (0 : Nat) ∈ m.collections.map Prod.fst :=
        List.mem_map.mpr ⟨q, hqm, h0⟩
      exact (lookup_eq_none_iff 0 m.collections).mp hlk0 hk0
  rw [hany0]
  simp only [Bool.false_or]
  rw [← hdfl]

theorem manifest_roundtrip_witness :
    parseManifest 30 100 1000 (Manifest.toJson mSamplePerm)
      = Except.ok mSample :=
  manifest_roundtrip 30 100 1000 mSample mSamplePerm
    (by unfold Manifest.wf; decide) (by decide)
    (by decide) (by decide) (by decide) (by decide)

/-- C2: processTimeout aborts exactly the tracked prepares whose deadline
has passed: a tracked prepare stays tracked iff it is not expired at asOf;
an expired prepare queues an abort item carrying its prepare seqno and
notifies its cookie with syncWriteAmbiguous; a prepare is expired iff it
has a finite deadline at most asOf; and a prepare with no deadline
(Timeout::Infinity) is never removed, for any asOf. -/
theorem process_timeout_aborts_exactly_expired
    (tracked : List Prepare) (asOf : Nat) (p : Prepare) (hp : p ∈ tracked) :
    (p ∈ (processTimeout tracked asOf).tracked ↔ p.expiredBy asOf = false) ∧
    (p.expiredBy asOf = true →
      (⟨QItemKind.abortItem, p.seqno⟩ : QItem) ∈ (processTimeout tracked asOf).aborted ∧
      ∀ c, p.cookie = some c →
        (c, Engine.syncWriteAmbiguous) ∈ (processTimeout tracked asOf).notified) ∧
    ((∃ d, p.deadline = some d ∧ d ≤ asOf) ↔ p.expiredBy asOf = true) ∧
    (p.deadline = none → p ∈ (processTimeout tracked asOf).tracked) := by
  refine ⟨?_, ?_, ?_, ?_⟩
  · simp only [processTimeout, List.mem_filter, hp, true_and]
    cases h : p.expiredBy asOf <;> simp
  · intro hexp
    constructor
    · simp only [processTimeout, List.mem_map]
      exact ⟨p, List.mem_filter.mpr ⟨hp, hexp⟩, rfl⟩
    · intro c hc
      simp only [processTimeout, List.mem_map]
      refine ⟨c, ?_, rfl⟩
      simp only [List.mem_filterMap]
      exact ⟨p, List.mem_filter.mpr ⟨hp, hexp⟩, hc⟩
  · unfold Prepare.expiredBy
    cases hd : p.deadline <;> simp
  · intro hd
    simp [processTimeout, List.mem_filter, hp, Prepare.expiredBy, hd]

theorem process_timeout_witness :
    (⟨QItemKind.abortItem, 1⟩ : QItem) ∈
      (processTimeout [⟨1, some 10, some 7⟩, ⟨2, none, some 8⟩] 20).aborted ∧
    (7, Engine.syncWriteAmbiguous) ∈
      (processTimeout [⟨1, some 10, some 7⟩, ⟨2, none, some 8⟩] 20).notified ∧
    (⟨2, none, some 8⟩ : Prepare) ∈
      (processTimeout [⟨1, some 10, some 7⟩, ⟨2, none, some 8⟩] 20).tracked := by
  have h1 := process_timeout_aborts_exactly_expired
    [⟨1, some 10, some 7⟩, ⟨2, none, some 8⟩] 20 ⟨1, some 10, some 7⟩ (by decide)
  have h2 := process_timeout_aborts_exactly_expired
    [⟨1, some 10, some 7⟩, ⟨2, none, some 8⟩] 20 ⟨2, none, some 8⟩ (by decide)
  exact ⟨(h1.2.1 (by decide)).1, (h1.2.1 (by decide)).2 7 rfl, h2.2.2.2 rfl⟩

/-- C3: commit returns keyEnoent when no stored value exists and einval
when the stored value is not pending, in both cases leaving the state
unchanged and queueing nothing; on a pending value it succeeds, replaces
the value by its committed-via-prepare form, appends a commit item to the
queue, leaves the tracked set unchanged and notifies the cookie (when
supplied) with success. -/
theorem commit_characterisation (st : KState) (pendingSeqno : Nat)
    (cookie : Option Nat) :
    (st.sv = none →
      VBucket.commit st pendingSeqno cookie = (Engine.keyEnoent, st, [])) ∧
    (∀ v, st.sv = some v → v.committed ≠ CommittedState.pend →
      VBucket.commit st pendingSeqno cookie = (Engine.einval, st, [])) ∧
    (∀ v, st.sv = some v → v.committed = CommittedState.pend →
      (VBucket.commit st pendingSeqno cookie).1 = Engine.success ∧
      (VBucket.commit st pendingSeqno cookie).2.1.sv =
        some { v with committed := CommittedState.committedViaPrepare,
                      dirty := true } ∧
      (VBucket.commit st pendingSeqno cookie).2.1.queued =
        st.queued ++ [⟨QItemKind.commitItem, pendingSeqno⟩] ∧
      (VBucket.commit st pendingSeqno cookie).2.1.tracked = st.tracked ∧
      ∀ c, cookie = some c →
        (VBucket.commit st pendingSeqno cookie).2.2 = [(c, Engine.success)]) := by
  refine ⟨?_, ?_, ?_⟩
  · intro h; simp [VBucket.commit, h]
  · intro v hv hnp
    simp only [VBucket.commit, hv]
    rw [if_pos (by simpa [bne_iff_ne] using hnp)]
  · intro v hv hp
    simp only [VBucket.commit, hv]
    rw [if_neg (by simp [bne_iff_ne, hp])]
    refine ⟨rfl, by simp [commitStoredValue], by simp [commitStoredValue],
      by simp [commitStoredValue], ?_⟩
    intro c hc; simp [hc]

end KVEngine
